import Mathlib

/-!
Verification development for the CalBridge task-scheduling pipeline.

The definitions below are shallow embeddings of the Python sources:
  * namespace Sched      — src/task_scheduler/task_scheduler.py and the
    Time Allotment Agent (src/Streamlined_Agents/Time_Allotment/
    time_allotment_agent.py).  Instants are modelled as integers counting
    seconds; a calendar day is the half-open span of 86400 seconds starting
    at a multiple of 86400, matching the naive datetimes the scheduler
    manipulates (its inputs are second-granularity ISO strings).
  * namespace TS         — src/Streamlined_Agents/time_standardizer.py.
    Datetimes are records of calendar fields, mirroring Python datetime;
    the configured zone is modelled as a fixed UTC offset, under which
    pytz localize keeps the wall-clock fields unchanged.
  * namespace EC         — src/Streamlined_Agents/event_creator_agent.py.
  * namespace LD         — src/agents/llm_decomposer.py.
  * namespace TD         — src/agents/task_difficulty_analyzer.py.
Strings handled character-wise are modelled as List Char.
-/

namespace Sched

/-- A half-open interval of seconds, written (start, stop). -/
abbrev Iv := Int × Int

def daySecs : Int := 86400

/-- Embeds day_start: the midnight at or before t (floor to the calendar day). -/
def day_start (t : Int) : Int := t - t % daySecs

/-- Embeds next_midnight: the first midnight strictly after day_start t. -/
def next_midnight (t : Int) : Int := day_start t + daySecs

/-- Index of the calendar day containing t. -/
def dayIdx (t : Int) : Int := day_start t / daySecs

/-- Loop body of split_interval_by_midnight.  The cursor advances by at least
    one each round, so a fuel of (b - cur).toNat rounds always suffices; the
    fuel only makes the while-loop recursion structural. -/
def splitGo (b : Int) : Nat → Int → List Iv
  | 0, _ => []
  | fuel + 1, cur =>
    if cur < b then (cur, min b (next_midnight cur)) :: splitGo b fuel (min b (next_midnight cur))
    else []

/-- Embeds split_interval_by_midnight: cut the span from a to b at midnights. -/
def split_interval_by_midnight (a b : Int) : List Iv := splitGo b (b - a).toNat a

/-- Embeds intersect on intervals. -/
def intersect (iv1 iv2 : Iv) : Option Iv :=
  let s := max iv1.1 iv2.1
  let e := min iv1.2 iv2.2
  if s < e then some (s, e) else none

/-- One interval minus the block (s, e): the per-interval body of subtract_block. -/
def subPiece (s e : Int) (iv : Iv) : List Iv :=
  if e ≤ iv.1 ∨ s ≥ iv.2 then [iv]
  else (if iv.1 < s then [(iv.1, s)] else []) ++ (if e < iv.2 then [(e, iv.2)] else [])

/-- Stable insertion into a list, mirroring where Python's stable sort places
    an element relative to a Boolean less-or-equal test. -/
def insertLe (le : α → α → Bool) (a : α) : List α → List α
  | [] => [a]
  | b :: l => if le a b then a :: b :: l else b :: insertLe le a l

/-- Stable sort by a Boolean less-or-equal test (models Python list.sort / sorted). -/
def sortLe (le : α → α → Bool) : List α → List α
  | [] => []
  | a :: l => insertLe le a (sortLe le l)

/-- Lexicographic order on interval pairs, as Python compares tuples. -/
def ivLe (x y : Iv) : Bool := decide (x.1 < y.1) || (decide (x.1 = y.1) && decide (x.2 ≤ y.2))

/-- The merge loop shared by subtract_block and apply_blackouts: the running
    interval cur absorbs every following interval that touches it. -/
def mergeGo (cur : Iv) : List Iv → List Iv
  | [] => [cur]
  | iv :: rest =>
    if cur.2 < iv.1 then cur :: mergeGo iv rest else mergeGo (cur.1, max cur.2 iv.2) rest

def mergeIvs : List Iv → List Iv
  | [] => []
  | iv :: rest => mergeGo iv rest

/-- Embeds subtract_block: remove the block (s, e) from every interval, then
    sort and merge the pieces. -/
def subtract_block (intervals : List Iv) (s e : Int) : List Iv :=
  mergeIvs (sortLe ivLe (intervals.flatMap (subPiece s e)))

/-- Embeds find_earliest_block: first interval long enough for the duration
    (in minutes), truncated to exactly that length. -/
def find_earliest_block (intervals : List Iv) (duration_min : Int) : Option Iv :=
  match intervals with
  | [] => none
  | iv :: rest =>
    if duration_min * 60 ≤ iv.2 - iv.1 then some (iv.1, iv.1 + duration_min * 60)
    else find_earliest_block rest duration_min

/-- Round-half-to-even of the rational a / b for b > 0, as Python round
    behaves on these small exact quotients. -/
def roundHalfEven (a b : Int) : Int :=
  let q := a / b
  let r := a % b
  if 2 * r < b then q
  else if b < 2 * r then q + 1
  else if q % 2 = 0 then q else q + 1

/-- Embeds choose_even_spread_targets. -/
def choose_even_spread_targets (num_tasks num_days : Nat) : List Int :=
  if num_tasks = 1 then [(num_days : Int) / 2]
  else (List.range num_tasks).map
    (fun i => roundHalfEven ((i : Int) * ((num_days : Int) - 1)) ((num_tasks : Int) - 1))

/-- Embeds ConstraintAdder.  Blackout times of day are seconds past local
    midnight; days are day indices; weekdays use Monday = 0. -/
structure ConstraintAdder where
  weekly_blackouts : List (Int × List (Int × Int)) := []
  date_blackouts : List (Int × List (Int × Int)) := []
  max_tasks_per_day : Option Int := none
  min_gap_minutes : Int := 0
deriving Repr, DecidableEq

def lookupBlackouts (m : List (Int × List (Int × Int))) (k : Int) : List (Int × Int) :=
  match m.find? (fun p => p.1 == k) with
  | some p => p.2
  | none => []

/-- Weekday of a day index (day 0 = 1970-01-01 was a Thursday; Monday = 0). -/
def weekdayOfDay (d : Int) : Int := (d + 3) % 7

/-- The per-day body of ConstraintAdder.apply_blackouts: subtract every weekly
    and date-specific blackout block from the day's intervals. -/
def applyBlackoutsDay (c : ConstraintAdder) (d : Int) (intervals : List Iv) : List Iv :=
  let blocks :=
    (lookupBlackouts c.weekly_blackouts (weekdayOfDay d)).map
      (fun p => (d * daySecs + p.1, d * daySecs + p.2)) ++
    (lookupBlackouts c.date_blackouts d).map
      (fun p => (d * daySecs + p.1, d * daySecs + p.2))
  blocks.foldl (fun ivs blk => subtract_block ivs blk.1 blk.2) intervals

def apply_blackouts (c : ConstraintAdder) (dw : List (Int × List Iv)) : List (Int × List Iv) :=
  dw.map (fun p => (p.1, applyBlackoutsDay c p.1 p.2))

structure ScheduleOptions where
  work_start_hour : Int := 6
  work_end_hour : Int := 23
deriving Repr, DecidableEq

/-- Embeds Assignment; finish stands for the Python field end. -/
structure Assignment where
  task_id : Nat
  duration_min : Int
  day : Int
  start : Int
  finish : Int
deriving Repr, DecidableEq

inductive SchedError
  | noEligible
  | infeasible
  | cannotPlace (idx : Nat)
deriving Repr, DecidableEq

end Sched

namespace Sched

/-- Step 1 of schedule_ordered_with_constraints: per-day availability pieces
    from the raw slots (skipping empty slots, splitting at midnight). -/
def buildPieces (slots : List Iv) : List Iv :=
  slots.flatMap (fun p => if p.2 ≤ p.1 then [] else split_interval_by_midnight p.1 p.2)

/-- Cap the pieces at the deadline, dropping pieces that start at or after it. -/
def capPieces (pieces : List Iv) (deadline : Int) : List Iv :=
  pieces.filterMap (fun p => if deadline ≤ p.1 then none else some (p.1, min p.2 deadline))

/-- Each capped piece intersected with its day's work-hour window, tagged with
    its day index. -/
def workdayWindowEntries (capped : List Iv) (o : ScheduleOptions) : List (Int × Iv) :=
  capped.filterMap (fun p =>
    let d0 := day_start p.1
    (intersect p (d0 + o.work_start_hour * 3600, d0 + o.work_end_hour * 3600)).map
      (fun iv => (dayIdx p.1, iv)))

/-- Insert a day index into a sorted duplicate-free list of day indices. -/
def insertDay (d : Int) : List Int → List Int
  | [] => [d]
  | x :: xs => if d < x then d :: x :: xs else if d = x then x :: xs else x :: insertDay d xs

def sortedDays (entries : List (Int × Iv)) : List Int :=
  entries.foldl (fun acc e => insertDay e.1 acc) []

/-- The workday_windows mapping: sorted day keys, each with its sorted list of
    work-hour intervals (Python sorts each day's interval list in place). -/
def buildWindows (capped : List Iv) (o : ScheduleOptions) : List (Int × List Iv) :=
  let entries := workdayWindowEntries capped o
  (sortedDays entries).map (fun d =>
    (d, sortLe ivLe (entries.filterMap (fun e => if e.1 == d then some e.2 else none))))

/-- The per-day availability as it stands when the feasibility check runs:
    steps 1-2 of schedule_ordered_with_constraints (pieces, deadline cap,
    work-hour intersection, blackout subtraction). -/
def eligibleWindows (slots : List Iv) (deadline : Int) (c : ConstraintAdder)
    (o : ScheduleOptions) : List (Int × List Iv) :=
  apply_blackouts c (buildWindows (capPieces (buildPieces slots) deadline) o)

/-- Total available minutes: whole minutes of every interval of every eligible
    day (Python floors each interval separately). -/
def availMinutes (w : List (Int × List Iv)) : Int :=
  (w.map (fun p => (p.2.map (fun iv => (iv.2 - iv.1) / 60)).sum)).sum

/-- Mutable state of the greedy placement loop. -/
structure PlaceState where
  windows : List (Int × List Iv)
  counts : List (Int × Int)
  assignments : List Assignment
deriving Repr, DecidableEq

def getWindows (w : List (Int × List Iv)) (d : Int) : List Iv :=
  match w.find? (fun p => p.1 == d) with
  | some p => p.2
  | none => []

def setWindows (w : List (Int × List Iv)) (d : Int) (ivs : List Iv) : List (Int × List Iv) :=
  w.map (fun p => if p.1 == d then (p.1, ivs) else p)

def getCount (counts : List (Int × Int)) (d : Int) : Int :=
  match counts.find? (fun p => p.1 == d) with
  | some p => p.2
  | none => 0

def incCount (counts : List (Int × Int)) (d : Int) : List (Int × Int) :=
  counts.map (fun p => if p.1 == d then (p.1, p.2 + 1) else p)

/-- Position of d in the eligible-day list (Python list.index). -/
def dayIndexIn (days : List Int) (d : Int) : Int := (days.indexOf d : Nat)

/-- The sort key ranking candidate days for one task: distance to the target
    index first, then current per-day load (Python tuple comparison). -/
def rankKeyLe (days : List Int) (counts : List (Int × Int)) (target : Int)
    (d1 d2 : Int) : Bool :=
  let a1 := (dayIndexIn days d1 - target).natAbs
  let a2 := (dayIndexIn days d2 - target).natAbs
  decide (a1 < a2) || (decide (a1 = a2) && decide (getCount counts d1 ≤ getCount counts d2))

def rankedDays (days : List Int) (counts : List (Int × Int)) (target : Int) : List Int :=
  sortLe (rankKeyLe days counts target) days

/-- Try the ranked candidate days in turn for one task of dur minutes;
    embeds the inner for-loop of the greedy placement. -/
def tryPlaceOn (c : ConstraintAdder) (idx : Nat) (dur : Int) (st : PlaceState) :
    List Int → Option PlaceState
  | [] => none
  | d :: rest =>
    let capped : Bool := match c.max_tasks_per_day with
      | some cap => decide (cap ≤ getCount st.counts d)
      | none => false
    if capped then tryPlaceOn c idx dur st rest
    else
      match find_earliest_block (getWindows st.windows d) dur with
      | none => tryPlaceOn c idx dur st rest
      | some blk =>
        let w1 := setWindows st.windows d (subtract_block (getWindows st.windows d) blk.1 blk.2)
        let w2 :=
          if 0 < c.min_gap_minutes then
            setWindows w1 d (subtract_block (getWindows w1 d) blk.2 (blk.2 + c.min_gap_minutes * 60))
          else w1
        some { windows := w2
               counts := incCount st.counts d
               assignments := st.assignments ++
                 [{ task_id := idx, duration_min := dur, day := d, start := blk.1, finish := blk.2 }] }

/-- The greedy placement over the ordered (duration, target) pairs. -/
def placeAll (c : ConstraintAdder) (days : List Int) :
    List (Int × Int) → Nat → PlaceState → Except SchedError PlaceState
  | [], _, st => .ok st
  | (dur, tgt) :: rest, idx, st =>
    match tryPlaceOn c idx dur st (rankedDays days st.counts tgt) with
    | none => .error (.cannotPlace idx)
    | some st2 => placeAll c days rest (idx + 1) st2

/-- Final sort key of the returned assignments: (start, task_id). -/
def assignLe (a b : Assignment) : Bool :=
  decide (a.start < b.start) || (decide (a.start = b.start) && decide (a.task_id ≤ b.task_id))

/-- Embeds schedule_ordered_with_constraints.  The three RuntimeError exits
    become the three SchedError constructors. -/
def schedule_ordered_with_constraints (tasks_min : List Int) (slots : List Iv)
    (deadline : Int) (c : ConstraintAdder) (o : ScheduleOptions) :
    Except SchedError (List Assignment × List (Int × Int)) :=
  let ws := eligibleWindows slots deadline c o
  let days := ws.map Prod.fst
  if days.isEmpty then .error .noEligible
  else if availMinutes ws < tasks_min.sum then .error .infeasible
  else
    match placeAll c days (tasks_min.zip (choose_even_spread_targets tasks_min.length days.length)) 0
        { windows := ws, counts := days.map (fun d => (d, 0)), assignments := [] } with
    | .error e => .error e
    | .ok st => .ok (sortLe assignLe st.assignments, st.counts)

/-- Embeds TimeAllotmentAgent._calculate_free_slots: the cursor walk over the
    busy events already sorted by start. -/
def freeWalk (We : Int) (c : Int) : List Iv → List Iv
  | [] => if c < We then [(c, We)] else []
  | ev :: rest =>
    if ev.2 ≤ c then freeWalk We c rest
    else
      (if c < ev.1 then (if c < min ev.1 We then [(c, min ev.1 We)] else []) else []) ++
        freeWalk We (max c ev.2) rest

/-- Free slots of the window (Ws, We) around the busy events; busy events are
    sorted by start (Python sorts their ISO strings, which for the bridge's
    uniform second-granularity format agrees with chronological order). -/
def calcFreeSlots (events : List Iv) (Ws We : Int) : List Iv :=
  freeWalk We Ws (sortLe (fun a b => decide (a.1 ≤ b.1)) events)

/-- The cursor walk exactly as the specification words it: emit the gap before
    each busy event when positive, advance the cursor, emit the tail gap. -/
def specFreeWalk (We : Int) (c : Int) : List Iv → List Iv
  | [] => if c < We then [(c, We)] else []
  | ev :: rest =>
    (if c < min ev.1 We then [(c, min ev.1 We)] else []) ++ specFreeWalk We (max c ev.2) rest

/-- Embeds TimeAllotmentAgent._validate_scheduled_slot as a Boolean test. -/
def validate_scheduled_slot (s e required Ws We : Int) (busy : List Iv) : Bool :=
  decide (Ws ≤ s) && decide (e ≤ We) && decide (s < e) &&
    decide ((e - s) / 60 = required) &&
    busy.all (fun ev => decide (e ≤ ev.1 ∨ ev.2 ≤ s))

def validateAll (l : List Assignment) (durs : List Int) (Ws We : Int) (busy : List Iv) : Bool :=
  (l.zip durs).all (fun p => validate_scheduled_slot p.1.start p.1.finish p.2 Ws We busy)

/-- The precedence validation of schedule_complex_task: each assignment (in
    task-index order) starts no earlier than its predecessor ends. -/
def checkPrecedence : List Assignment → Bool
  | [] => true
  | [_] => true
  | a :: b :: rest => decide (a.finish ≤ b.start) && checkPrecedence (b :: rest)

def noOverlapWith (a : Assignment) (l : List Assignment) : Bool :=
  l.all (fun b => decide (b.finish ≤ a.start ∨ a.finish ≤ b.start))

def checkNoOverlap : List Assignment → Bool
  | [] => true
  | a :: rest => noOverlapWith a rest && checkNoOverlap rest

def taskIdLe (a b : Assignment) : Bool := decide (a.task_id ≤ b.task_id)

/-- Embeds the algorithmic core of TimeAllotmentAgent.schedule_complex_task:
    free slots from the busy events, the ordered scheduler with a 5-minute
    cooldown, then the slot / precedence / overlap validations; any raised
    RuntimeError becomes none.  The returned list holds the subtask slots in
    subtask order. -/
def schedule_complex_task (durs : List Int) (events : List Iv) (Ws We : Int)
    (o : ScheduleOptions) : Option (List Iv) :=
  let free := calcFreeSlots events Ws We
  if free.isEmpty then none
  else
    match schedule_ordered_with_constraints durs free We { min_gap_minutes := 5 } o with
    | .error _ => none
    | .ok res =>
      if res.1.length ≠ durs.length then none
      else
        let sorted := sortLe taskIdLe res.1
        if validateAll sorted durs Ws We events && checkPrecedence sorted &&
            checkNoOverlap sorted then
          some (sorted.map (fun a => (a.start, a.finish)))
        else none

end Sched

namespace TS

/-- Python strings handled character-wise. -/
abbrev Str := List Char

def strL (s : String) : Str := s.toList

/-- Mirrors Python datetime: a record of calendar fields (the configured zone
    is a fixed offset, so pytz localize leaves these fields unchanged). -/
structure DateTime where
  year : Int
  month : Int
  day : Int
  hour : Int
  minute : Int
  second : Int
  usec : Int
deriving Repr, DecidableEq

/-- Python datetime comparison: lexicographic on the calendar fields. -/
def dtLt (a b : DateTime) : Bool :=
  if a.year ≠ b.year then decide (a.year < b.year)
  else if a.month ≠ b.month then decide (a.month < b.month)
  else if a.day ≠ b.day then decide (a.day < b.day)
  else if a.hour ≠ b.hour then decide (a.hour < b.hour)
  else if a.minute ≠ b.minute then decide (a.minute < b.minute)
  else if a.second ≠ b.second then decide (a.second < b.second)
  else decide (a.usec < b.usec)

def dtLe (a b : DateTime) : Bool := ! dtLt b a

def isLeap (y : Int) : Bool := (y % 4 == 0 && y % 100 != 0) || y % 400 == 0

def daysInMonth (y m : Int) : Int :=
  if m = 2 then (if isLeap y then 29 else 28)
  else if m = 4 ∨ m = 6 ∨ m = 9 ∨ m = 11 then 30
  else 31

/-- Python timedelta(days=1) addition on a valid datetime. -/
def addOneDay (d : DateTime) : DateTime :=
  if d.day < daysInMonth d.year d.month then { d with day := d.day + 1 }
  else if d.month < 12 then { d with day := 1, month := d.month + 1 }
  else { d with day := 1, month := 1, year := d.year + 1 }

/-- The range checks the Python datetime constructor performs; out-of-range
    fields raise ValueError, which the parsers catch and turn into None. -/
def validFields (y mo d h mi s : Int) : Bool :=
  decide (1 ≤ y) && decide (y ≤ 9999) && decide (1 ≤ mo) && decide (mo ≤ 12) &&
  decide (1 ≤ d) && decide (d ≤ daysInMonth y mo) &&
  decide (0 ≤ h) && decide (h ≤ 23) && decide (0 ≤ mi) && decide (mi ≤ 59) &&
  decide (0 ≤ s) && decide (s ≤ 59)

def mkDateTime (y mo d h mi s : Int) : Option DateTime :=
  if validFields y mo d h mi s then some ⟨y, mo, d, h, mi, s, 0⟩ else none

/-- Embeds _determine_seconds. -/
def determine_seconds (dt : DateTime) (is_eod : Bool) : DateTime :=
  if is_eod && dt.hour == 23 && dt.minute == 59 then { dt with second := 59, usec := 0 }
  else { dt with second := 0, usec := 0 }

/-- Embeds _adjust_past_times (the note string is dropped). -/
def adjust_past_times (s e now : DateTime) : DateTime × DateTime :=
  let sp := dtLt s now
  let ep := dtLt e now
  if !sp && !ep then (s, e)
  else if sp && ep then (addOneDay s, addOneDay e)
  else if sp && !ep then (now, e)
  else (s, { s with hour := e.hour, minute := e.minute, second := e.second, usec := e.usec })

/-- Embeds _enforce_invariant: on violation, end becomes 23:59:59 on start's
    date. -/
def enforce_invariant (s e : DateTime) : DateTime × DateTime :=
  if dtLe s e then (s, e)
  else (s, { s with hour := 23, minute := 59, second := 59, usec := 0 })

/-- The value-level pipeline of standardize after parsing: seconds rule, past
    adjustment, invariant repair. -/
def standardizeCore (s e : DateTime) (is_eod : Bool) (now : DateTime) : DateTime × DateTime :=
  let s1 := determine_seconds s false
  let e1 := determine_seconds e is_eod
  let p := adjust_past_times s1 e1 now
  enforce_invariant p.1 p.2

def isWS (c : Char) : Bool := c.isWhitespace

/-- Python str.strip: drop whitespace from both ends. -/
def stripStr (s : Str) : Str := (((s.dropWhile isWS).reverse).dropWhile isWS).reverse

def lowerStr (s : Str) : Str := s.map Char.toLower

def upperStr (s : Str) : Str := s.map Char.toUpper

def digitChar (k : Nat) : Char :=
  match k with
  | 0 => '0' | 1 => '1' | 2 => '2' | 3 => '3' | 4 => '4'
  | 5 => '5' | 6 => '6' | 7 => '7' | 8 => '8' | _ => '9'

def digitVal (c : Char) : Nat := c.toNat - 48

def num2 (c1 c2 : Char) : Int := (10 * digitVal c1 + digitVal c2 : Nat)

def num4 (c1 c2 c3 c4 : Char) : Int :=
  (1000 * digitVal c1 + 100 * digitVal c2 + 10 * digitVal c3 + digitVal c4 : Nat)

/-- Two-digit zero-padded rendering (fields are pre-validated below 100). -/
def pad2 (n : Nat) : Str := [digitChar (n / 10), digitChar (n % 10)]

def pad4 (n : Nat) : Str :=
  [digitChar (n / 1000), digitChar (n / 100 % 10), digitChar (n / 10 % 10), digitChar (n % 10)]

def pad6 (n : Nat) : Str :=
  [digitChar (n / 100000), digitChar (n / 10000 % 10), digitChar (n / 1000 % 10),
   digitChar (n / 100 % 10), digitChar (n / 10 % 10), digitChar (n % 10)]

/-- The UTC-offset suffix Python isoformat prints for a fixed offset of
    offMin minutes. -/
def offsetStr (offMin : Int) : Str :=
  if 0 ≤ offMin then '+' :: pad2 (offMin.toNat / 60) ++ ':' :: pad2 (offMin.toNat % 60)
  else '-' :: pad2 (offMin.natAbs / 60) ++ ':' :: pad2 (offMin.natAbs % 60)

/-- Python datetime.isoformat() of an aware datetime with the given fixed
    offset: microseconds are printed only when non-zero. -/
def renderIso (dt : DateTime) (offMin : Int) : Str :=
  pad4 dt.year.toNat ++
  ('-' :: (pad2 dt.month.toNat ++
  ('-' :: (pad2 dt.day.toNat ++
  ('T' :: (pad2 dt.hour.toNat ++
  (':' :: (pad2 dt.minute.toNat ++
  (':' :: (pad2 dt.second.toNat ++
  ((if dt.usec ≠ 0 then '.' :: pad6 dt.usec.toNat else []) ++ offsetStr offMin)))))))))))

/-- The offset alternative ([+-]dd:dd | Z) of the ISO fallback regex. -/
def offsetOk : Str → Bool
  | ['Z'] => true
  | [sgn, a, b, ':', c, d] =>
    (sgn == '+' || sgn == '-') && a.isDigit && b.isDigit && c.isDigit && d.isDigit
  | _ => false

/-- Embeds _parse_iso_format: the anchored regex for RFC3339 with numeric
    offset or Z; the offset is validated but dropped (the result is naive). -/
def parse_iso_format (text : Str) : Option DateTime :=
  match stripStr text with
  | y1 :: y2 :: y3 :: y4 :: '-' :: m1 :: m2 :: '-' :: d1 :: d2 :: 'T' ::
      h1 :: h2 :: ':' :: n1 :: n2 :: ':' :: s1 :: s2 :: rest =>
    if ([y1, y2, y3, y4, m1, m2, d1, d2, h1, h2, n1, n2, s1, s2].all Char.isDigit
        && offsetOk rest) then
      mkDateTime (num4 y1 y2 y3 y4) (num2 m1 m2) (num2 d1 d2)
        (num2 h1 h2) (num2 n1 n2) (num2 s1 s2)
    else none
  | _ => none

def monthNum (s : Str) : Option Int :=
  if s = strL "january" then some 1 else if s = strL "february" then some 2
  else if s = strL "march" then some 3 else if s = strL "april" then some 4
  else if s = strL "may" then some 5 else if s = strL "june" then some 6
  else if s = strL "july" then some 7 else if s = strL "august" then some 8
  else if s = strL "september" then some 9 else if s = strL "october" then some 10
  else if s = strL "november" then some 11 else if s = strL "december" then some 12
  else none

/-- Mandatory whitespace: the regex piece backslash-s-plus. -/
def wsPlus (s : Str) : Option Str :=
  if (s.takeWhile isWS).isEmpty then none else some (s.dropWhile isWS)

/-- The 12-to-24-hour conversion both canonical parsers perform. -/
def fixHour (h : Int) (isPm : Bool) : Int :=
  if isPm && h != 12 then h + 12 else if !isPm && h == 12 then 0 else h

/-- The shared tail of the canonical and extended formats, starting at the
    month name: month letters, ws, 2-digit day, comma, ws, 4-digit year, ws,
    2-digit hour, colon, 2-digit minute, ws, am or pm (case-insensitive),
    end of string. -/
def parseMonthBody (s : Str) : Option DateTime :=
  let letters := s.takeWhile Char.isAlpha
  if letters.isEmpty then none
  else
    match monthNum (lowerStr letters) with
    | none => none
    | some mo =>
      match wsPlus (s.dropWhile Char.isAlpha) with
      | none => none
      | some r1 =>
        match r1 with
        | d1 :: d2 :: ',' :: r2 =>
          if d1.isDigit && d2.isDigit then
            match wsPlus r2 with
            | none => none
            | some r3 =>
              match r3 with
              | y1 :: y2 :: y3 :: y4 :: r4 =>
                if [y1, y2, y3, y4].all Char.isDigit then
                  match wsPlus r4 with
                  | none => none
                  | some r5 =>
                    match r5 with
                    | h1 :: h2 :: ':' :: n1 :: n2 :: r6 =>
                      if [h1, h2, n1, n2].all Char.isDigit then
                        match wsPlus r6 with
                        | none => none
                        | some r7 =>
                          if lowerStr r7 = strL "am" then
                            mkDateTime (num4 y1 y2 y3 y4) mo (num2 d1 d2)
                              (fixHour (num2 h1 h2) false) (num2 n1 n2) 0
                          else if lowerStr r7 = strL "pm" then
                            mkDateTime (num4 y1 y2 y3 y4) mo (num2 d1 d2)
                              (fixHour (num2 h1 h2) true) (num2 n1 n2) 0
                          else none
                      else none
                    | _ => none
                else none
              | _ => none
          else none
        | _ => none

/-- Embeds _parse_canonical_format: "Month DD, YYYY HH:MM am/pm". -/
def parse_canonical_format (text : Str) : Option DateTime :=
  parseMonthBody (stripStr text)

/-- Embeds _parse_extended_format: "Weekday, Month DD, YYYY HH:MM am/pm". -/
def parse_extended_format (text : Str) : Option DateTime :=
  let s := stripStr text
  let letters := s.takeWhile Char.isAlpha
  if letters.isEmpty then none
  else
    match s.dropWhile Char.isAlpha with
    | ',' :: r1 =>
      match wsPlus r1 with
      | none => none
      | some r2 => parseMonthBody r2
    | _ => none

/-- The parse cascade of standardize: canonical, then extended, then ISO. -/
def parseText (t : Str) : Option DateTime :=
  match parse_canonical_format t with
  | some dt => some dt
  | none =>
    match parse_extended_format t with
    | some dt => some dt
    | none => parse_iso_format t

def renderNatAux : Nat → Nat → List Char
  | 0, _ => []
  | fuel + 1, n =>
    if n < 10 then [digitChar n] else digitChar (n % 10) :: renderNatAux fuel (n / 10)

/-- Decimal rendering of a natural number, as Python str formatting. -/
def renderNat (n : Nat) : Str := (renderNatAux (n + 1) n).reverse

def numOf (ds : Str) : Nat := ds.foldl (fun acc c => 10 * acc + digitVal c) 0

def minuteUnits : List Str := [strL "m", strL "min", strL "mins", strL "minute", strL "minutes"]

def hourUnits : List Str := [strL "h", strL "hr", strL "hrs", strL "hour", strL "hours"]

/-- One number-then-unit pattern: digits, optional whitespace, then exactly a
    unit word to the end of the string. -/
def matchNumUnit (s : Str) (units : List Str) : Option Nat :=
  let ds := s.takeWhile Char.isDigit
  if ds.isEmpty then none
  else
    let rest := (s.dropWhile Char.isDigit).dropWhile isWS
    if units.any (fun u => u == rest) then some (numOf ds) else none

/-- Alternation over hour units for the compound pattern, in the regex's
    order, backtracking to the next unit when the remainder fails. -/
def tryCompoundTail (hrs : Nat) (r1 : Str) : List Str → Option (Nat × Nat)
  | [] => none
  | u :: us =>
    if u.isPrefixOf r1 then
      let r2 := (r1.drop u.length).dropWhile isWS
      let ds2 := r2.takeWhile Char.isDigit
      if ds2.isEmpty then tryCompoundTail hrs r1 us
      else
        let r3 := (r2.dropWhile Char.isDigit).dropWhile isWS
        if minuteUnits.any (fun m => m == r3) then some (hrs, numOf ds2)
        else tryCompoundTail hrs r1 us
    else tryCompoundTail hrs r1 us

/-- The compound pattern: digits, hour unit, digits, minute unit. -/
def matchCompound (s : Str) : Option (Nat × Nat) :=
  let ds := s.takeWhile Char.isDigit
  if ds.isEmpty then none
  else tryCompoundTail (numOf ds) ((s.dropWhile Char.isDigit).dropWhile isWS) hourUnits

/-- The decimal-hours pattern: digits, a dot, digits, optional whitespace,
    hour unit.  The fractional minutes int((hf - int(hf)) * 60) is modelled
    by exact rational truncation; Python's float arithmetic can differ by one
    minute in rare carry cases, which no claim exercises. -/
def matchDecimal (s : Str) : Option (Nat × Nat) :=
  let ds := s.takeWhile Char.isDigit
  if ds.isEmpty then none
  else
    match s.dropWhile Char.isDigit with
    | '.' :: r1 =>
      let ds2 := r1.takeWhile Char.isDigit
      if ds2.isEmpty then none
      else
        let rest := (r1.dropWhile Char.isDigit).dropWhile isWS
        if hourUnits.any (fun u => u == rest) then
          some (numOf ds, numOf ds2 * 60 / 10 ^ ds2.length)
        else none
    | _ => none

/-- The pattern cascade of _normalize_duration on the stripped, lowercased
    text. -/
def normDur (s : Str) : Option Str :=
  match matchNumUnit s minuteUnits with
  | some n => some (strL "PT" ++ renderNat n ++ ['M'])
  | none =>
    match matchNumUnit s hourUnits with
    | some n => some (strL "PT" ++ renderNat n ++ ['H'])
    | none =>
      match matchCompound s with
      | some p => some (strL "PT" ++ (renderNat p.1 ++ 'H' :: (renderNat p.2 ++ ['M'])))
      | none =>
        match matchDecimal s with
        | some p => some (strL "PT" ++ (renderNat p.1 ++ 'H' :: (renderNat p.2 ++ ['M'])))
        | none =>
          if s = strL "half an hour" ∨ s = strL "half hour" then some (strL "PT30M")
          else if s = strL "an hour" ∨ s = strL "one hour" then some (strL "PT1H")
          else none

/-- Embeds _normalize_duration. -/
def normalize_duration (d : Option Str) : Option Str :=
  match d with
  | none => none
  | some s => if s.isEmpty then none else normDur (lowerStr (stripStr s))

/-- Embeds standardize, from the parsed texts to the rendered ISO outputs;
    raised ValueErrors become none.  The configured zone is the fixed offset
    offMin (in minutes), under which localize leaves the parsed naive fields
    unchanged, and now is the clock value datetime.now reads. -/
def standardize (start_text end_text : Str) (duration : Option Str) (offMin : Int)
    (now : DateTime) : Option (Str × Str × Option Str) :=
  if start_text.isEmpty || end_text.isEmpty then none
  else
    match parseText start_text, parseText end_text with
    | some sdt, some edt =>
      let is_eod := (strL "11:59 pm").isSuffixOf (stripStr end_text)
      let core := standardizeCore sdt edt is_eod now
      some (renderIso core.1 offMin, renderIso core.2 offMin, normalize_duration duration)
    | _, _ => none

end TS

namespace EC

/-- One external POST attempt, as _calbridge_post_with_retry observes it:
    an HTTP status code or a raised requests exception. -/
inductive PostResp
  | status (code : Nat)
  | exc
deriving Repr, DecidableEq

/-- Milliseconds of the backoff_delays list [0.1, 0.5, 2.0] seconds. -/
def backoff_delays : List Nat := [100, 500, 2000]

/-- The observable outcome of the POST retry loop: whether it succeeded, the
    sleeps it performed (in ms, in order), and how many attempts it made. -/
structure PostOutcome where
  success : Bool
  sleeps : List Nat
  attempts : Nat
deriving Repr, DecidableEq

/-- The retry loop body of _calbridge_post_with_retry.  resp gives the
    response of each attempt; remaining counts the loop iterations left
    (max_retries - attempt), making the recursion structural. -/
def postRetryAux (resp : Nat → PostResp) (max_retries : Nat) :
    Nat → Nat → List Nat → PostOutcome
  | 0, attempt, sleeps => ⟨false, sleeps, attempt⟩
  | remaining + 1, attempt, sleeps =>
    match resp attempt with
    | .status 200 => ⟨true, sleeps, attempt + 1⟩
    | .status code =>
      if code < 500 then ⟨false, sleeps, attempt + 1⟩
      else if attempt < max_retries - 1 then
        postRetryAux resp max_retries remaining (attempt + 1)
          (sleeps ++ [backoff_delays.getD attempt 0])
      else ⟨false, sleeps, attempt + 1⟩
    | .exc =>
      if attempt < max_retries - 1 then
        postRetryAux resp max_retries remaining (attempt + 1)
          (sleeps ++ [backoff_delays.getD attempt 0])
      else ⟨false, sleeps, attempt + 1⟩

/-- Embeds _calbridge_post_with_retry with its default max_retries = 3. -/
def calbridge_post_with_retry (resp : Nat → PostResp) : PostOutcome :=
  postRetryAux resp 3 3 0 []

/-- A task row of the tasks table. -/
structure TaskRow where
  id : String
  title : String
  parent_id : Option String
deriving Repr, DecidableEq

/-- A row of the event_map table. -/
structure EventMapRow where
  task_id : String
  calendar_id : String
  calendar_event_id : String
deriving Repr, DecidableEq

structure Db where
  tasks : List TaskRow
  event_map : List EventMapRow
deriving Repr, DecidableEq

/-- The reachable results of _calbridge_delete_with_retry, abstracting the
    retry loop: success (event deleted, or deleted-flag false), a 404-style
    already-deleted success, or a failure (4xx / exhausted retries /
    network). -/
inductive BridgeDel
  | success
  | notFound
  | failure (msg : String)
deriving Repr, DecidableEq

/-- The (success, was_404) pair _calbridge_delete_with_retry returns. -/
def delRetryResult : BridgeDel → Bool × Bool
  | .success => (true, false)
  | .notFound => (true, true)
  | .failure _ => (false, false)

/-- The dictionary _delete_child_task returns. -/
structure ChildDelResult where
  success : Bool
  was_404 : Bool
  calendar_event_id : Option String
  error : Option String
deriving Repr, DecidableEq

/-- Embeds _delete_child_task: look up the event_map row, delete the external
    event via the bridge, and on success delete the event_map and tasks rows. -/
def delete_child_task (bridge : String → BridgeDel) (db : Db) (task_id : String) :
    ChildDelResult × Db :=
  match db.event_map.find? (fun r => r.task_id == task_id) with
  | none =>
    (⟨true, false, none, none⟩,
     { db with tasks := db.tasks.filter (fun t => t.id ≠ task_id) })
  | some row =>
    let res := delRetryResult (bridge row.calendar_event_id)
    if res.1 then
      (⟨true, res.2, some row.calendar_event_id, none⟩,
       { tasks := db.tasks.filter (fun t => t.id ≠ task_id),
         event_map := db.event_map.filter (fun r => r.task_id ≠ task_id) })
    else
      (⟨false, false, none, match bridge row.calendar_event_id with
          | .failure msg => some msg
          | _ => none⟩, db)

/-- The aggregate DeleteResult: (task_id, calendar_event_id) pairs for
    deleted, (task_id, reason) pairs for skipped and errors. -/
structure DeleteResult where
  deleted : List (String × String) := []
  skipped : List (String × String) := []
  errors : List (String × String) := []
deriving Repr, DecidableEq

/-- How delete_by_id and delete_by_parent_id classify one child's result:
    success goes to deleted, then was_404 to skipped, else errors. -/
def classifyChild (res : DeleteResult) (child_id : String) (cr : ChildDelResult) :
    DeleteResult :=
  if cr.success then
    { res with deleted := res.deleted ++ [(child_id, cr.calendar_event_id.getD "")] }
  else if cr.was_404 then
    { res with skipped := res.skipped ++ [(child_id, "already_deleted")] }
  else
    { res with errors := res.errors ++ [(child_id, cr.error.getD "Unknown error")] }

/-- The cascade loop of delete_by_id over the children fetched up front. -/
def processChildren (bridge : String → BridgeDel) :
    Db → List String → DeleteResult → DeleteResult × Db
  | db, [], res => (res, db)
  | db, c :: rest, res =>
    let p := delete_child_task bridge db c
    processChildren bridge p.2 rest (classifyChild res c p.1)

/-- Embeds delete_by_id: not-found tasks are skipped; a parent (a task with
    children) cascades over its children and then deletes its own row; a
    leaf is deleted directly. -/
def delete_by_id (bridge : String → BridgeDel) (db : Db) (task_id : String) :
    DeleteResult × Db :=
  match db.tasks.find? (fun t => t.id == task_id) with
  | none => ({ skipped := [(task_id, "not_found")] }, db)
  | some _ =>
    let children := (db.tasks.filter (fun t => t.parent_id == some task_id)).map
      (fun t => t.id)
    if children.isEmpty then
      let p := delete_child_task bridge db task_id
      (classifyChild {} task_id p.1, p.2)
    else
      let p := processChildren bridge db children {}
      (p.1, { p.2 with tasks := p.2.tasks.filter (fun t => t.id ≠ task_id) })

end EC

namespace LD

open TS

/-- One optional group (digits followed by a unit letter) of the anchored PT
    regex: a maximal digit run must be followed directly by the letter — any
    shorter run would abut a digit — else the group matches empty and
    consumes nothing. -/
def grabNum (u : Char) (s : Str) : Option Nat × Str :=
  let ds := s.takeWhile Char.isDigit
  let rest := s.dropWhile Char.isDigit
  if ds.isEmpty then (none, s)
  else
    match rest with
    | c :: rest2 => if c = u then (some (numOf ds), rest2) else (none, s)
    | [] => (none, s)

/-- Full match of the pattern PT(\d+H)?(\d+M)? anchored at both ends,
    returning the two groups. -/
def parsePTParts (s : Str) : Option (Option Nat × Option Nat) :=
  match s with
  | 'P' :: 'T' :: rest =>
    let h := grabNum 'H' rest
    let m := grabNum 'M' h.2
    if m.2.isEmpty then some (h.1, m.1) else none
  | _ => none

/-- Embeds LLMDecomposer._validate_iso8601_duration: the anchored PT pattern
    on the uppercased string, at least one component, hours at most 3, and
    no minutes beside exactly 3 hours. -/
def validate_iso8601_duration (s : Str) : Bool :=
  match parsePTParts (upperStr s) with
  | none => false
  | some (none, none) => false
  | some (some h, mp) =>
    if 3 < h then false
    else
      match mp with
      | some m => if h = 3 ∧ 0 < m then false else true
      | none => true
  | some (none, some _) => true

/-- The scanning state of re.search for (\d+)X: acc accumulates the digit
    run currently open; on a non-digit the run either matches (next char is
    the unit) or is abandoned.  Only maximal runs can match, since a shorter
    run suffix is followed by a digit, not the unit letter. -/
def searchAux (u : Char) (acc : Option Nat) : Str → Option Nat
  | [] => none
  | c :: rest =>
    if c.isDigit then searchAux u (some (acc.getD 0 * 10 + digitVal c)) rest
    else
      match acc with
      | some v => if c = u then some v else searchAux u none rest
      | none => searchAux u none rest

def searchNumThen (u : Char) (s : Str) : Option Nat := searchAux u none s

/-- Embeds LLMDecomposer._parse_duration_to_minutes: re.search for (\d+)H
    and (\d+)M in the uppercased string, defaulting each to 0. -/
def parse_duration_to_minutes (s : Str) : Nat :=
  60 * (searchNumThen 'H' (upperStr s)).getD 0 + (searchNumThen 'M' (upperStr s)).getD 0

/-- Embeds LLMDecomposer._cap_duration_to_pt3h. -/
def cap_duration_to_pt3h (s : Str) : Str :=
  if parse_duration_to_minutes s ≤ 180 then s else strL "PT3H"

structure Subtask where
  title : Str
  duration : Str
deriving Repr, DecidableEq

/-- The per-subtask body of _validate_and_fix_subtasks: drop short titles;
    keep valid durations (then cap); cap PT-prefixed invalid durations on
    their uppercased form; drop the rest. -/
def fixOne (st : Str × Str) : Option Subtask :=
  let title := stripStr st.1
  let duration := stripStr st.2
  if title.length < 3 then none
  else if validate_iso8601_duration duration then
    some ⟨title, cap_duration_to_pt3h duration⟩
  else
    let du := upperStr duration
    if (strL "PT").isPrefixOf du then
      some ⟨title, cap_duration_to_pt3h (cap_duration_to_pt3h du)⟩
    else none

def default_subtasks : List Subtask :=
  [⟨strL "Plan and outline", strL "PT45M"⟩, ⟨strL "Execute and finalize", strL "PT1H"⟩]

/-- Embeds LLMDecomposer._validate_and_fix_subtasks. -/
def validate_and_fix_subtasks (raw : List (Str × Str)) : List Subtask :=
  let validated := raw.filterMap fixOne
  let validated := if validated.length < 2 then default_subtasks else validated
  if 5 < validated.length then validated.take 5 else validated

end LD

namespace TD

/-- The fields analyze reads from the parsed LLM JSON (absent keys are
    none). -/
structure AnalysisData where
  calendar : Option String
  typeField : Option String
  title : Option String
deriving Repr, DecidableEq

/-- The TaskDifficultyAnalysis record; typeField embeds the Python field
    named type. -/
structure TaskDifficultyAnalysis where
  calendar : Option String
  typeField : String
  title : Option String
  duration : Option String
deriving Repr, DecidableEq

def work_keywords : List TS.Str :=
  [TS.strL "client", TS.strL "manager", TS.strL "team", TS.strL "meeting", TS.strL "deck",
   TS.strL "proposal", TS.strL "report", TS.strL "prd", TS.strL "sprint", TS.strL "code",
   TS.strL "repo", TS.strL "deploy", TS.strL "invoice", TS.strL "expense", TS.strL "contract",
   TS.strL "nda", TS.strL "design", TS.strL "marketing", TS.strL "sales", TS.strL "finance",
   TS.strL "legal", TS.strL "roadmap", TS.strL "okr"]

def home_keywords : List TS.Str :=
  [TS.strL "mom", TS.strL "dad", TS.strL "family", TS.strL "friend", TS.strL "groceries",
   TS.strL "laundry", TS.strL "gym", TS.strL "workout", TS.strL "dentist", TS.strL "doctor",
   TS.strL "birthday", TS.strL "rent", TS.strL "clean", TS.strL "apartment", TS.strL "house"]

/-- The Python substring test "kw in text". -/
def isSubstring (kw : TS.Str) : TS.Str → Bool
  | [] => kw.isEmpty
  | c :: rest => kw.isPrefixOf (c :: rest) || isSubstring kw rest

/-- The post-LLM enforcement of TaskDifficultyAnalyzer.analyze (lines after
    JSON parsing): calendar fix-up by keyword search, the hard duration-vs-
    type rule, and duration pass-through. -/
def analyzePost (query : TS.Str) (duration : Option String)
    (work_id home_id : Option String) (ad : AnalysisData) : TaskDifficultyAnalysis :=
  let query_lower := TS.lowerStr query
  let calendar_id :=
    match ad.calendar with
    | none => none
    | some cid =>
      if cid ≠ "" ∧ ¬ (some cid = work_id ∨ some cid = home_id) then
        let has_work := work_keywords.any (fun kw => isSubstring kw query_lower)
        let has_home := home_keywords.any (fun kw => isSubstring kw query_lower)
        if has_work ∧ work_id.isSome then work_id
        else if has_home ∧ home_id.isSome then home_id
        else if work_id.isSome then work_id
        else if home_id.isSome then home_id
        else none
      else some cid
  let task_type :=
    if duration.isSome then "simple"
    else
      match ad.typeField with
      | some t => if t = "simple" ∨ t = "complex" then t else "complex"
      | none => "complex"
  { calendar := calendar_id, typeField := task_type, title := ad.title,
    duration := duration }

end TD
namespace Sched

theorem day_start_le (t : Int) : day_start t ≤ t := by
  have h : 0 ≤ t % daySecs := Int.emod_nonneg t (by decide)
  simp only [day_start]; omega

theorem lt_next_midnight (t : Int) : t < next_midnight t := by
  have h : t % daySecs < daySecs := Int.emod_lt_of_pos t (by decide)
  simp only [next_midnight, day_start, daySecs] at *; omega

theorem splitGo_fuel (b : Int) :
    ∀ (f1 f2 : Nat) (cur : Int), (b - cur).toNat ≤ f1 → (b - cur).toNat ≤ f2 →
      splitGo b f1 cur = splitGo b f2 cur := by
  intro f1
  induction f1 with
  | zero =>
    intro f2 cur h1 _
    have hb : ¬ cur < b := by omega
    cases f2 with
    | zero => rfl
    | succ f2 => simp [splitGo, hb]
  | succ f1 ih =>
    intro f2 cur h1 h2
    cases f2 with
    | zero =>
      have hb : ¬ cur < b := by omega
      simp [splitGo, hb]
    | succ f2 =>
      by_cases hb : cur < b
      · have hm := lt_next_midnight cur
        have hrec : (b - min b (next_midnight cur)).toNat ≤ f1 := by omega
        have hrec2 : (b - min b (next_midnight cur)).toNat ≤ f2 := by omega
        simp only [splitGo, if_pos hb]
        rw [ih f2 _ hrec hrec2]
      · simp [splitGo, hb]

/-- The loop equation of split_interval_by_midnight, in the shape of the
    Python while loop. -/
theorem split_interval_by_midnight_eq (a b : Int) :
    split_interval_by_midnight a b =
      if a < b then
        (a, min b (next_midnight a)) :: split_interval_by_midnight (min b (next_midnight a)) b
      else [] := by
  by_cases hb : a < b
  · have hm := lt_next_midnight a
    have hf : (b - a).toNat = ((b - a).toNat - 1) + 1 := by omega
    simp only [split_interval_by_midnight, if_pos hb]
    rw [hf]
    simp only [splitGo, if_pos hb]
    rw [splitGo_fuel b ((b - a).toNat - 1) (b - min b (next_midnight a)).toNat
      (min b (next_midnight a)) (by omega) (le_refl _)]
  · have hz : (b - a).toNat = 0 := by omega
    simp only [split_interval_by_midnight, hz, splitGo, if_neg hb]

end Sched

namespace Sched

theorem checkPrecedence_chain :
    ∀ l : List Assignment, checkPrecedence l = true →
      l.Chain' (fun a b => a.finish ≤ b.start)
  | [], _ => List.chain'_nil
  | [_], _ => List.chain'_singleton _
  | a :: b :: rest, h => by
    simp only [checkPrecedence, Bool.and_eq_true, decide_eq_true_eq] at h
    exact List.chain'_cons.mpr ⟨h.1, checkPrecedence_chain (b :: rest) h.2⟩

/-- C1 (amended part): every complex schedule actually returned by the Time
    Allotment Agent satisfies the precedence property: the slot of subtask
    i + 1 starts no earlier than the slot of subtask i ends.  This holds
    because schedule_complex_task validates precedence over the assignments
    sorted by task index and raises on violation — not because the ordered
    scheduler places tasks in order (see C1_counterexample). -/
theorem C1_ta_returned_precedence (durs : List Int) (events : List Iv) (Ws We : Int)
    (o : ScheduleOptions) (slots : List Iv)
    (h : schedule_complex_task durs events Ws We o = some slots) :
    ∀ i : Nat, ∀ hi : i + 1 < slots.length,
      (slots.get ⟨i, by omega⟩).2 ≤ (slots.get ⟨i + 1, hi⟩).1 := by
  simp only [schedule_complex_task] at h
  split at h
  · exact absurd h (by simp)
  · split at h
    · exact absurd h (by simp)
    · rename_i res heq
      split at h
      · exact absurd h (by simp)
      · split at h
        · rename_i hval
          simp only [Bool.and_eq_true] at hval
          have hprec := checkPrecedence_chain _ hval.1.2
          have hslots : slots = (sortLe taskIdLe res.1).map (fun a => (a.start, a.finish)) :=
            (Option.some.injEq _ _ ▸ h).symm
          subst hslots
          have hch : ((sortLe taskIdLe res.1).map (fun a => (a.start, a.finish))).Chain'
              (fun x y => x.2 ≤ y.1) := by
            rw [List.chain'_map]
            exact hprec
          intro i hi
          exact List.chain'_iff_get.mp hch i (by omega)
        · exact absurd h (by simp)

/-- Witness for C1_ta_returned_precedence at a concrete successful run. -/
theorem C1_ta_returned_precedence_witness :
    ([((21600 : Int), (23400 : Int)), (23700, 25500)].get ⟨0, by decide⟩).2 ≤
      ([((21600 : Int), (23400 : Int)), (23700, 25500)].get ⟨1, by decide⟩).1 :=
  C1_ta_returned_precedence [30, 30] [] 21600 82800 {} [(21600, 23400), (23700, 25500)]
    (by rfl) 0 (by decide)

/-- C1 (counterexample): a successful run of schedule_ordered_with_constraints
    in which the assignment for task index 1 (placed second) starts at 36000,
    before the assignment for task index 0 ends at 126000: processing in order
    does not enforce precedence by task index.  Day 0 offers only 30 minutes
    (10:00-10:30), so the 60-minute task 0 lands on day 1 and the 30-minute
    task 1 then falls back to day 0. -/
theorem C1_counterexample :
    schedule_ordered_with_constraints [60, 30] [(36000, 37800), (122400, 126000)]
        172800 {} {} =
      .ok ([{ task_id := 1, duration_min := 30, day := 0, start := 36000, finish := 37800 },
            { task_id := 0, duration_min := 60, day := 1, start := 122400, finish := 126000 }],
           [(0, 1), (1, 1)]) ∧
      (36000 : Int) < 126000 :=
  ⟨by rfl, by omega⟩

theorem placeAll_ne_infeasible (c : ConstraintAdder) (days : List Int) :
    ∀ (ts : List (Int × Int)) (idx : Nat) (st : PlaceState),
      placeAll c days ts idx st ≠ .error .infeasible
  | [], _, _ => by simp [placeAll]
  | (dur, tgt) :: rest, idx, st => by
    simp only [placeAll]
    cases h : tryPlaceOn c idx dur st (rankedDays days st.counts tgt) with
    | none => simp
    | some st2 => exact placeAll_ne_infeasible c days rest (idx + 1) st2

/-- C2: with at least one eligible working-day interval before the deadline,
    the ordered scheduler rejects with Infeasible exactly when the requested
    minutes exceed the available minutes summed over the eligible per-day
    intervals computed before placement; in particular equality passes the
    feasibility check and one extra minute trips it. -/
theorem C2_infeasible_iff (tasks_min : List Int) (slots : List Iv) (deadline : Int)
    (c : ConstraintAdder) (o : ScheduleOptions)
    (h : eligibleWindows slots deadline c o ≠ []) :
    schedule_ordered_with_constraints tasks_min slots deadline c o = .error .infeasible ↔
      availMinutes (eligibleWindows slots deadline c o) < tasks_min.sum := by
  obtain ⟨w0, ws', hws⟩ := List.exists_cons_of_ne_nil h
  simp only [schedule_ordered_with_constraints, hws, List.map_cons, List.isEmpty_cons,
    Bool.false_eq_true, if_false]
  by_cases hav : availMinutes (w0 :: ws') < tasks_min.sum
  · rw [if_pos hav]
    simp only [hav, iff_true]
  · rw [if_neg hav]
    constructor
    · intro hcontr
      split at hcontr
      · rename_i e heq
        have he : e = SchedError.infeasible := by injection hcontr
        exact absurd (he ▸ heq) (placeAll_ne_infeasible c _ _ _ _)
      · exact absurd hcontr (by simp)
    · intro hcontr
      exact absurd hcontr hav

/-- Witness for C2_infeasible_iff: 30 free minutes (10:00-10:30) cannot hold a
    31-minute task, and the run indeed rejects with Infeasible. -/
theorem C2_infeasible_iff_witness :
    schedule_ordered_with_constraints [31] [(36000, 37800)] 86400 {} {} =
      .error .infeasible :=
  (C2_infeasible_iff [31] [(36000, 37800)] 86400 {} {} (by decide)).mpr (by decide)

end Sched

namespace Sched

theorem insertLe_perm (le : α → α → Bool) (a : α) :
    ∀ l : List α, (insertLe le a l).Perm (a :: l)
  | [] => List.Perm.refl _
  | b :: l => by
    simp only [insertLe]
    split
    · exact List.Perm.refl _
    · exact ((insertLe_perm le a l).cons b).trans (List.Perm.swap a b l)

theorem sortLe_perm (le : α → α → Bool) : ∀ l : List α, (sortLe le l).Perm l
  | [] => List.Perm.refl _
  | a :: l => (insertLe_perm le a (sortLe le l)).trans ((sortLe_perm le l).cons a)

theorem insertLe_pairwise (le : α → α → Bool)
    (htot : ∀ a b, le a b = true ∨ le b a = true)
    (htrans : ∀ a b c, le a b = true → le b c = true → le a c = true) (a : α) :
    ∀ l : List α, l.Pairwise (fun x y => le x y = true) →
      (insertLe le a l).Pairwise (fun x y => le x y = true)
  | [], _ => by simp [insertLe]
  | b :: l, hl => by
    obtain ⟨hb, hl'⟩ := List.pairwise_cons.mp hl
    simp only [insertLe]
    split
    · rename_i hab
      refine List.pairwise_cons.mpr ⟨?_, hl⟩
      intro x hx
      rcases List.mem_cons.mp hx with rfl | hx
      · exact hab
      · exact htrans a b x hab (hb x hx)
    · rename_i hab
      have hba : le b a = true := (htot a b).resolve_left hab
      refine List.pairwise_cons.mpr ⟨?_, insertLe_pairwise le htot htrans a l hl'⟩
      intro x hx
      rcases List.mem_cons.mp ((insertLe_perm le a l).mem_iff.mp hx) with rfl | h1
      · exact hba
      · exact hb x h1

theorem sortLe_pairwise (le : α → α → Bool)
    (htot : ∀ a b, le a b = true ∨ le b a = true)
    (htrans : ∀ a b c, le a b = true → le b c = true → le a c = true) :
    ∀ l : List α, (sortLe le l).Pairwise (fun x y => le x y = true)
  | [] => List.Pairwise.nil
  | a :: l => insertLe_pairwise le htot htrans a _ (sortLe_pairwise le htot htrans l)

end Sched

namespace Sched

theorem freeWalk_bounds (We : Int) :
    ∀ (evs : List Iv) (c : Int) (p : Iv), p ∈ freeWalk We c evs →
      c ≤ p.1 ∧ p.1 < p.2 ∧ p.2 ≤ We := by
  intro evs
  induction evs with
  | nil =>
    intro c p hp
    simp only [freeWalk] at hp
    split at hp
    · rename_i hlt
      rcases List.mem_singleton.mp hp with rfl
      exact ⟨le_refl _, hlt, le_refl _⟩
    · simp at hp
  | cons ev rest ih =>
    intro c p hp
    simp only [freeWalk] at hp
    split at hp
    · exact ih c p hp
    · rename_i hne
      rcases List.mem_append.mp hp with hemit | hrec
      · split at hemit
        · split at hemit
          · rename_i h1 h2
            rcases List.mem_singleton.mp hemit with rfl
            refine ⟨le_refl _, h2, ?_⟩
            simp only [min_le_iff]
            right; exact le_refl _
          · simp at hemit
        · simp at hemit
      · have h := ih (max c ev.2) p hrec
        exact ⟨le_trans (le_max_left _ _) h.1, h.2.1, h.2.2⟩

theorem freeWalk_chain (We : Int) :
    ∀ (evs : List Iv) (c : Int), (∀ ev ∈ evs, ev.1 ≤ ev.2) →
      (freeWalk We c evs).Chain' (fun x y => x.2 ≤ y.1) := by
  intro evs
  induction evs with
  | nil =>
    intro c _
    simp only [freeWalk]
    split
    · exact List.chain'_singleton _
    · exact List.chain'_nil
  | cons ev rest ih =>
    intro c hwf
    have hwf0 : ev.1 ≤ ev.2 := hwf ev (List.mem_cons_self ev rest)
    have hwfr : ∀ e ∈ rest, e.1 ≤ e.2 := fun e he => hwf e (List.mem_cons_of_mem ev he)
    simp only [freeWalk]
    split
    · exact ih c hwfr
    · rename_i hne
      split
      · split
        · rename_i h1 h2
          simp only [List.singleton_append]
          refine List.chain'_cons'.mpr ⟨?_, ih (max c ev.2) hwfr⟩
          intro y hy
          have hy' := List.mem_of_mem_head? hy
          have hb := freeWalk_bounds We rest (max c ev.2) y hy'
          have : min ev.1 We ≤ ev.1 := min_le_left _ _
          have : ev.2 ≤ max c ev.2 := le_max_right _ _
          omega
        · simp only [List.nil_append]
          exact ih (max c ev.2) hwfr
      · simp only [List.nil_append]
        exact ih (max c ev.2) hwfr

theorem freeWalk_no_overlap (We : Int) :
    ∀ (evs : List Iv) (c : Int), evs.Pairwise (fun x y => x.1 ≤ y.1) →
      ∀ ev ∈ evs, ∀ p ∈ freeWalk We c evs, ¬(p.1 < ev.2 ∧ ev.1 < p.2) := by
  intro evs
  induction evs with
  | nil => intro c _ ev hev; simp at hev
  | cons ev0 rest ih =>
    intro c hpair ev hev p hp
    obtain ⟨h0, hrestp⟩ := List.pairwise_cons.mp hpair
    simp only [freeWalk] at hp
    split at hp
    · rename_i hskip
      rcases List.mem_cons.mp hev with rfl | hev'
      · have hb := freeWalk_bounds We rest c p hp
        intro hcontr
        omega
      · exact ih c hrestp ev hev' p hp
    · rename_i hne
      rcases List.mem_append.mp hp with hemit | hrec
      · rcases List.mem_cons.mp hev with rfl | hev'
        · split at hemit
          · split at hemit
            · rcases List.mem_singleton.mp hemit with rfl
              intro hcontr
              simp only at hcontr
              have : min ev.1 We ≤ ev.1 := min_le_left _ _
              omega
            · simp at hemit
          · simp at hemit
        · split at hemit
          · split at hemit
            · rcases List.mem_singleton.mp hemit with rfl
              intro hcontr
              simp only at hcontr
              have h01 : ev0.1 ≤ ev.1 := h0 ev hev'
              have : min ev0.1 We ≤ ev0.1 := min_le_left _ _
              omega
            · simp at hemit
          · simp at hemit
      · rcases List.mem_cons.mp hev with rfl | hev'
        · have hb := freeWalk_bounds We rest (max c ev.2) p hrec
          intro hcontr
          have : ev.2 ≤ max c ev.2 := le_max_right _ _
          omega
        · exact ih (max c ev0.2) hrestp ev hev' p hrec

theorem freeWalk_cover (We : Int) :
    ∀ (evs : List Iv) (c t : Int), c ≤ t → t < We →
      (∀ ev ∈ evs, ¬(ev.1 ≤ t ∧ t < ev.2)) →
      ∃ p ∈ freeWalk We c evs, p.1 ≤ t ∧ t < p.2 := by
  intro evs
  induction evs with
  | nil =>
    intro c t hct htW _
    refine ⟨(c, We), ?_, hct, htW⟩
    simp only [freeWalk]
    rw [if_pos (by omega)]
    exact List.mem_singleton_self _
  | cons ev rest ih =>
    intro c t hct htW hfree
    have hfree0 := hfree ev (List.mem_cons_self ev rest)
    have hfreer : ∀ e ∈ rest, ¬(e.1 ≤ t ∧ t < e.2) :=
      fun e he => hfree e (List.mem_cons_of_mem ev he)
    simp only [freeWalk]
    split
    · exact ih c t hct htW hfreer
    · rename_i hne
      by_cases htb : t < ev.1
      · refine ⟨(c, min ev.1 We), ?_, hct, by omega⟩
        rw [if_pos (by omega), if_pos (by omega)]
        exact List.mem_append_left _ (List.mem_singleton_self _)
      · have hte : ev.2 ≤ t := by omega
        obtain ⟨p, hp, hpt⟩ := ih (max c ev.2) t (by omega) htW hfreer
        exact ⟨p, List.mem_append_right _ hp, hpt⟩

theorem freeWalk_eq_spec (We : Int) :
    ∀ (evs : List Iv) (c : Int), (∀ ev ∈ evs, ev.1 ≤ ev.2) →
      freeWalk We c evs = specFreeWalk We c evs := by
  intro evs
  induction evs with
  | nil => intro c _; rfl
  | cons ev rest ih =>
    intro c hwf
    have hwf0 : ev.1 ≤ ev.2 := hwf ev (List.mem_cons_self ev rest)
    have hwfr : ∀ e ∈ rest, e.1 ≤ e.2 := fun e he => hwf e (List.mem_cons_of_mem ev he)
    simp only [freeWalk, specFreeWalk]
    split
    · rename_i hskip
      have hmax : max c ev.2 = c := by omega
      have hnogap : ¬ c < min ev.1 We := by
        simp only [not_lt, le_min_iff] at *
        omega
      rw [if_neg hnogap, hmax]
      simp only [List.nil_append]
      exact ih c hwfr
    · rename_i hne
      by_cases hgap : c < min ev.1 We
      · rw [if_pos (by omega), if_pos hgap]
        rw [ih (max c ev.2) hwfr]
      · rw [if_neg hgap]
        split
        · simp only [List.nil_append]
          exact ih (max c ev.2) hwfr
        · simp only [List.nil_append]
          exact ih (max c ev.2) hwfr

end Sched

namespace Sched

/-- C3: the free-slot computation _calculate_free_slots equals the
    specification's cursor walk over the busy events sorted by start, and its
    output is within the window, pairwise disjoint in order, overlaps no busy
    event, and covers every instant of the window not covered by a busy
    event.  The busy events are intervals (start at most end). -/
theorem C3_free_slots (events : List Iv) (Ws We : Int) (hW : Ws < We)
    (hwf : ∀ ev ∈ events, ev.1 ≤ ev.2) :
    calcFreeSlots events Ws We =
        specFreeWalk We Ws (sortLe (fun a b => decide (a.1 ≤ b.1)) events) ∧
      (∀ p ∈ calcFreeSlots events Ws We, Ws ≤ p.1 ∧ p.1 < p.2 ∧ p.2 ≤ We) ∧
      (calcFreeSlots events Ws We).Chain' (fun x y => x.2 ≤ y.1) ∧
      (∀ ev ∈ events, ∀ p ∈ calcFreeSlots events Ws We, ¬(p.1 < ev.2 ∧ ev.1 < p.2)) ∧
      (∀ t, Ws ≤ t → t < We → (∀ ev ∈ events, ¬(ev.1 ≤ t ∧ t < ev.2)) →
        ∃ p ∈ calcFreeSlots events Ws We, p.1 ≤ t ∧ t < p.2) := by
  have hperm := sortLe_perm (fun a b : Iv => decide (a.1 ≤ b.1)) events
  have hwfs : ∀ ev ∈ sortLe (fun a b : Iv => decide (a.1 ≤ b.1)) events, ev.1 ≤ ev.2 :=
    fun ev hev => hwf ev (hperm.mem_iff.mp hev)
  have hpairb := sortLe_pairwise (fun a b : Iv => decide (a.1 ≤ b.1))
    (fun a b => by by_cases h : a.1 ≤ b.1
                   · left; exact decide_eq_true h
                   · right; exact decide_eq_true (by omega))
    (fun a b c h1 h2 => decide_eq_true
      (le_trans (of_decide_eq_true h1) (of_decide_eq_true h2))) events
  have hpair : (sortLe (fun a b : Iv => decide (a.1 ≤ b.1)) events).Pairwise
      (fun x y => x.1 ≤ y.1) := hpairb.imp (fun h => of_decide_eq_true h)
  refine ⟨freeWalk_eq_spec We _ Ws hwfs, ?_, ?_, ?_, ?_⟩
  · intro p hp
    exact freeWalk_bounds We _ Ws p hp
  · exact freeWalk_chain We _ Ws hwfs
  · intro ev hev p hp
    exact freeWalk_no_overlap We _ Ws hpair ev (hperm.mem_iff.mpr hev) p hp
  · intro t h1 h2 h3
    exact freeWalk_cover We _ Ws t h1 h2
      (fun ev hev => h3 ev (hperm.mem_iff.mp hev))

/-- Witness for C3_free_slots at a concrete window and busy list. -/
theorem C3_free_slots_witness :
    calcFreeSlots [(30000, 40000), (25000, 28000)] 21600 82800 =
        specFreeWalk 82800 21600
          (sortLe (fun a b => decide (a.1 ≤ b.1)) [(30000, 40000), (25000, 28000)]) ∧
      (∀ p ∈ calcFreeSlots [(30000, 40000), (25000, 28000)] 21600 82800,
        (21600 : Int) ≤ p.1 ∧ p.1 < p.2 ∧ p.2 ≤ 82800) ∧
      (calcFreeSlots [(30000, 40000), (25000, 28000)] 21600 82800).Chain'
        (fun x y => x.2 ≤ y.1) ∧
      (∀ ev ∈ [((30000 : Int), (40000 : Int)), (25000, 28000)],
        ∀ p ∈ calcFreeSlots [(30000, 40000), (25000, 28000)] 21600 82800,
          ¬(p.1 < ev.2 ∧ ev.1 < p.2)) ∧
      (∀ t, (21600 : Int) ≤ t → t < 82800 →
        (∀ ev ∈ [((30000 : Int), (40000 : Int)), (25000, 28000)], ¬(ev.1 ≤ t ∧ t < ev.2)) →
        ∃ p ∈ calcFreeSlots [(30000, 40000), (25000, 28000)] 21600 82800,
          p.1 ≤ t ∧ t < p.2) :=
  C3_free_slots [(30000, 40000), (25000, 28000)] 21600 82800 (by decide) (by decide)

end Sched

namespace TS

theorem dtLe_endOfDay (x : DateTime) (hh : x.hour ≤ 23) (hm : x.minute ≤ 59)
    (hs : x.second ≤ 59) (hu : x.usec ≤ 0) :
    dtLe x { x with hour := 23, minute := 59, second := 59, usec := 0 } = true := by
  simp only [dtLe, dtLt]
  split_ifs <;> simp_all <;> omega

theorem addOneDay_hour (d : DateTime) : (addOneDay d).hour = d.hour := by
  simp only [addOneDay]; split_ifs <;> rfl

theorem addOneDay_minute (d : DateTime) : (addOneDay d).minute = d.minute := by
  simp only [addOneDay]; split_ifs <;> rfl

theorem addOneDay_second (d : DateTime) : (addOneDay d).second = d.second := by
  simp only [addOneDay]; split_ifs <;> rfl

theorem addOneDay_usec (d : DateTime) : (addOneDay d).usec = d.usec := by
  simp only [addOneDay]; split_ifs <;> rfl

theorem enforce_ok (a b : DateTime) (hh : a.hour ≤ 23) (hm : a.minute ≤ 59)
    (hs : a.second ≤ 59) (hu : a.usec ≤ 0) :
    dtLe (enforce_invariant a b).1 (enforce_invariant a b).2 = true := by
  simp only [enforce_invariant]
  split
  · rename_i hcond
    exact hcond
  · exact dtLe_endOfDay a hh hm hs hu

theorem determine_seconds_hour (d : DateTime) (b : Bool) :
    (determine_seconds d b).hour = d.hour := by
  simp only [determine_seconds]; split <;> rfl

theorem determine_seconds_minute (d : DateTime) (b : Bool) :
    (determine_seconds d b).minute = d.minute := by
  simp only [determine_seconds]; split <;> rfl

theorem determine_seconds_second_le (d : DateTime) (b : Bool) :
    (determine_seconds d b).second ≤ 59 := by
  simp only [determine_seconds]; split <;> simp

theorem determine_seconds_usec (d : DateTime) (b : Bool) :
    (determine_seconds d b).usec = 0 := by
  simp only [determine_seconds]; split <;> rfl

theorem adjust_cases (s1 e1 now : DateTime) :
    adjust_past_times s1 e1 now = (s1, e1) ∨
    adjust_past_times s1 e1 now = (addOneDay s1, addOneDay e1) ∨
    (adjust_past_times s1 e1 now = (now, e1) ∧ dtLt e1 now = false) ∨
    adjust_past_times s1 e1 now =
      (s1, { s1 with hour := e1.hour, minute := e1.minute,
                     second := e1.second, usec := e1.usec }) := by
  simp only [adjust_past_times]
  cases hsp : dtLt s1 now <;> cases hep : dtLt e1 now <;> simp [hsp, hep]

theorem standardizeCore_le (s e : DateTime) (is_eod : Bool) (now : DateTime)
    (hh : s.hour ≤ 23) (hm : s.minute ≤ 59) :
    dtLe (standardizeCore s e is_eod now).1 (standardizeCore s e is_eod now).2 = true := by
  have hdh : (determine_seconds s false).hour = s.hour := determine_seconds_hour s false
  have hdm : (determine_seconds s false).minute = s.minute := determine_seconds_minute s false
  have hds := determine_seconds_second_le s false
  have hdu := determine_seconds_usec s false
  obtain hA | hB | ⟨hC, hCle⟩ | hD :=
    adjust_cases (determine_seconds s false) (determine_seconds e is_eod) now
  · simp only [standardizeCore, hA]
    exact enforce_ok _ _ (by omega) (by omega) (by omega) (by omega)
  · simp only [standardizeCore, hB]
    refine enforce_ok _ _ ?_ ?_ ?_ ?_
    · rw [addOneDay_hour]; omega
    · rw [addOneDay_minute]; omega
    · rw [addOneDay_second]; omega
    · rw [addOneDay_usec]; omega
  · simp only [standardizeCore, hC]
    simp only [enforce_invariant]
    have hle : dtLe now (determine_seconds e is_eod) = true := by
      simp only [dtLe, hCle, Bool.not_false]
    rw [if_pos hle]
    exact hle
  · simp only [standardizeCore, hD]
    exact enforce_ok _ _ (by omega) (by omega) (by omega) (by omega)

theorem mkDateTime_bounds (y mo d h mi s : Int) (dt : DateTime)
    (hmk : mkDateTime y mo d h mi s = some dt) : dt.hour ≤ 23 ∧ dt.minute ≤ 59 := by
  simp only [mkDateTime] at hmk
  split at hmk
  · rename_i hv
    simp only [validFields, Bool.and_eq_true, decide_eq_true_eq] at hv
    cases hmk
    exact ⟨hv.1.1.1.1.2, hv.1.1.2⟩
  · cases hmk

theorem parseMonthBody_bounds (s : Str) (dt : DateTime) (h : parseMonthBody s = some dt) :
    dt.hour ≤ 23 ∧ dt.minute ≤ 59 := by
  simp only [parseMonthBody] at h
  repeat' split at h
  all_goals first
    | exact mkDateTime_bounds _ _ _ _ _ _ _ h
    | simp at h

theorem parse_iso_bounds (t : Str) (dt : DateTime) (h : parse_iso_format t = some dt) :
    dt.hour ≤ 23 ∧ dt.minute ≤ 59 := by
  simp only [parse_iso_format] at h
  repeat' split at h
  all_goals first
    | exact mkDateTime_bounds _ _ _ _ _ _ _ h
    | simp at h

theorem parse_canonical_bounds (t : Str) (dt : DateTime)
    (h : parse_canonical_format t = some dt) : dt.hour ≤ 23 ∧ dt.minute ≤ 59 :=
  parseMonthBody_bounds _ _ h

theorem parse_extended_bounds (t : Str) (dt : DateTime)
    (h : parse_extended_format t = some dt) : dt.hour ≤ 23 ∧ dt.minute ≤ 59 := by
  simp only [parse_extended_format] at h
  repeat' split at h
  all_goals first
    | exact parseMonthBody_bounds _ _ h
    | simp at h

theorem parseText_bounds (t : Str) (dt : DateTime) (h : parseText t = some dt) :
    dt.hour ≤ 23 ∧ dt.minute ≤ 59 := by
  simp only [parseText] at h
  split at h
  · rename_i dt0 heq
    cases h
    exact parse_canonical_bounds _ _ heq
  · split at h
    · rename_i dt0 heq
      cases h
      exact parse_extended_bounds _ _ heq
    · exact parse_iso_bounds _ _ h

/-- C4: every output of standardize satisfies start at most end: the two
    rendered instants come from the post-repair core values, and the final
    repair (end set to 23:59:59 on start's date) guarantees the order for
    every parse result, seconds choice, past adjustment, and clock value. -/
theorem C4_start_le_end (st et : Str) (dur : Option Str) (offMin : Int) (now : DateTime)
    (out : Str × Str × Option Str)
    (h : standardize st et dur offMin now = some out) :
    ∃ sdt edt : DateTime, out.1 = renderIso sdt offMin ∧ out.2.1 = renderIso edt offMin ∧
      dtLe sdt edt = true := by
  simp only [standardize] at h
  split at h
  · cases h
  · split at h
    · rename_i sdt edt hps hpe
      obtain ⟨hh, hm⟩ := parseText_bounds st sdt hps
      cases h
      refine ⟨_, _, rfl, rfl, ?_⟩
      exact standardizeCore_le sdt edt _ now hh hm
    · cases h

/-- Witness for C4_start_le_end at a concrete standardize run. -/
theorem C4_start_le_end_witness :
    ∃ sdt edt : DateTime,
      strL "2025-10-24T20:00:00-04:00" = renderIso sdt (-240) ∧
      strL "2025-10-24T23:59:59-04:00" = renderIso edt (-240) ∧
      dtLe sdt edt = true :=
  C4_start_le_end (strL "October 24, 2025 08:00 pm") (strL "October 24, 2025 06:00 pm")
    none (-240) ⟨2025, 10, 1, 0, 0, 0, 0⟩
    (strL "2025-10-24T20:00:00-04:00", strL "2025-10-24T23:59:59-04:00", none) (by rfl)

/-- C5 (counterexample): standardize is not the identity on its own output.
    The run below has start and end strictly after the clock (so no past
    adjustment fires), yet feeding the output back changes the end (the
    end-of-day seconds 23:59:59 become 23:59:00, because the ISO string does
    not end in "11:59 pm") and nulls the duration (PT2H is not an accepted
    duration spelling). -/
theorem C5_counterexample :
    standardize (strL "November 10, 2025 09:00 am") (strL "November 15, 2025 11:59 pm")
        (some (strL "2h")) (-300) ⟨2025, 11, 1, 0, 0, 0, 0⟩ =
      some (strL "2025-11-10T09:00:00-05:00", strL "2025-11-15T23:59:59-05:00",
        some (strL "PT2H")) ∧
      standardize (strL "2025-11-10T09:00:00-05:00") (strL "2025-11-15T23:59:59-05:00")
        (some (strL "PT2H")) (-300) ⟨2025, 11, 1, 0, 0, 0, 0⟩ =
      some (strL "2025-11-10T09:00:00-05:00", strL "2025-11-15T23:59:00-05:00", none) ∧
      strL "2025-11-15T23:59:00-05:00" ≠ strL "2025-11-15T23:59:59-05:00" ∧
      (none : Option Str) ≠ some (strL "PT2H") :=
  ⟨by rfl, by rfl, by decide, by decide⟩

end TS

namespace TS

theorem digitChar_isDigit (k : Nat) : (digitChar k).isDigit = true := by
  unfold digitChar; split <;> rfl

theorem digitChar_not_ws (k : Nat) : isWS (digitChar k) = false := by
  unfold digitChar; split <;> rfl

theorem digitChar_not_alpha (k : Nat) : (digitChar k).isAlpha = false := by
  unfold digitChar; split <;> rfl

theorem digitVal_digitChar (k : Nat) (h : k < 10) : digitVal (digitChar k) = k := by
  interval_cases k <;> rfl

theorem dropWhile_eq_self_of (p : Char → Bool) :
    ∀ s : Str, (∀ c ∈ s, p c = false) → s.dropWhile p = s
  | [], _ => rfl
  | c :: s, h => by
    have hc : p c = false := h c (List.mem_cons_self c s)
    simp [List.dropWhile, hc]

theorem stripStr_eq_self (s : Str) (h : ∀ c ∈ s, isWS c = false) : stripStr s = s := by
  have h1 : s.dropWhile isWS = s := dropWhile_eq_self_of isWS s h
  have h2 : s.reverse.dropWhile isWS = s.reverse :=
    dropWhile_eq_self_of isWS s.reverse (fun c hc => h c (List.mem_reverse.mp hc))
  simp [stripStr, h1, h2]

theorem renderNatAux_digits :
    ∀ (fuel n : Nat) (c : Char), c ∈ renderNatAux fuel n → ∃ k, c = digitChar k := by
  intro fuel
  induction fuel with
  | zero => intro n c hc; simp [renderNatAux] at hc
  | succ fuel ih =>
    intro n c hc
    simp only [renderNatAux] at hc
    split at hc
    · rcases List.mem_singleton.mp hc with rfl
      exact ⟨n, rfl⟩
    · rcases List.mem_cons.mp hc with rfl | hc
      · exact ⟨n % 10, rfl⟩
      · exact ih (n / 10) c hc

theorem renderNat_digits (n : Nat) (c : Char) (hc : c ∈ renderNat n) :
    ∃ k, c = digitChar k := by
  simp only [renderNat, List.mem_reverse] at hc
  exact renderNatAux_digits (n + 1) n c hc

theorem renderNat_nonws (n : Nat) : ∀ c ∈ renderNat n, isWS c = false := by
  intro c hc
  obtain ⟨k, rfl⟩ := renderNat_digits n c hc
  exact digitChar_not_ws k

theorem mem_nonws_M (n : Nat) : ∀ c ∈ renderNat n ++ ['M'], isWS c = false := by
  intro c hc
  rcases List.mem_append.mp hc with hc | hc
  · exact renderNat_nonws n c hc
  · rcases List.mem_singleton.mp hc with rfl
    rfl

theorem mem_nonws_H (n : Nat) : ∀ c ∈ renderNat n ++ ['H'], isWS c = false := by
  intro c hc
  rcases List.mem_append.mp hc with hc | hc
  · exact renderNat_nonws n c hc
  · rcases List.mem_singleton.mp hc with rfl
    rfl

theorem mem_nonws_HM (a b : Nat) :
    ∀ c ∈ renderNat a ++ 'H' :: (renderNat b ++ ['M']), isWS c = false := by
  intro c hc
  rcases List.mem_append.mp hc with hc | hc
  · exact renderNat_nonws a c hc
  · rcases List.mem_cons.mp hc with rfl | hc
    · rfl
    · exact mem_nonws_M b c hc

theorem normDur_shape (s w : Str) (h : normDur s = some w) :
    ∃ t, w = 'P' :: 'T' :: t ∧ ∀ c ∈ t, isWS c = false := by
  simp only [normDur] at h
  split at h
  · rename_i n heq
    rcases Option.some.inj h with rfl
    exact ⟨_, rfl, mem_nonws_M n⟩
  · split at h
    · rename_i n heq
      rcases Option.some.inj h with rfl
      exact ⟨_, rfl, mem_nonws_H n⟩
    · split at h
      · rename_i p heq
        rcases Option.some.inj h with rfl
        refine ⟨_, rfl, mem_nonws_HM p.1 p.2⟩
      · split at h
        · rename_i p heq
          rcases Option.some.inj h with rfl
          refine ⟨_, rfl, mem_nonws_HM p.1 p.2⟩
        · split at h
          · rcases Option.some.inj h with rfl
            exact ⟨['3', '0', 'M'], rfl, by decide⟩
          · split at h
            · rcases Option.some.inj h with rfl
              exact ⟨['1', 'H'], rfl, by decide⟩
            · exact absurd h (by simp)

/-- A normalized ISO-8601 duration fed back to _normalize_duration is never
    recognised: every PT-prefixed string falls through every pattern. -/
theorem cons_ne_of_head (a b : Char) (l1 l2 : List Char) (hne : a ≠ b) :
    (a :: l1) ≠ (b :: l2) := by
  intro h
  injection h with h1 _
  exact hne h1

theorem takeWhile_cons_false (p : Char → Bool) (c : Char) (l : Str) (h : p c = false) :
    List.takeWhile p (c :: l) = [] := by
  simp [List.takeWhile, h]

theorem matchNumUnit_p_none (l : Str) (units : List Str) :
    matchNumUnit ('p' :: l) units = none := by
  simp only [matchNumUnit]
  rw [takeWhile_cons_false _ _ _ (by decide)]
  simp

theorem matchCompound_p_none (l : Str) : matchCompound ('p' :: l) = none := by
  simp only [matchCompound]
  rw [takeWhile_cons_false _ _ _ (by decide)]
  simp

theorem matchDecimal_p_none (l : Str) : matchDecimal ('p' :: l) = none := by
  simp only [matchDecimal]
  rw [takeWhile_cons_false _ _ _ (by decide)]
  simp

theorem normDur_PT_none (w : Str) (t : Str) (hw : w = 'P' :: 'T' :: t)
    (hnws : ∀ c ∈ t, isWS c = false) : normalize_duration (some w) = none := by
  subst hw
  have hall : ∀ c ∈ 'P' :: 'T' :: t, isWS c = false := by
    intro c hc
    rcases List.mem_cons.mp hc with rfl | hc
    · rfl
    · rcases List.mem_cons.mp hc with rfl | hc
      · rfl
      · exact hnws c hc
  simp only [normalize_duration, List.isEmpty_cons, if_false]
  rw [stripStr_eq_self _ hall]
  simp only [lowerStr, List.map_cons]
  have hP : Char.toLower 'P' = 'p' := rfl
  have hT : Char.toLower 'T' = 't' := rfl
  rw [hP, hT]
  simp only [normDur, matchNumUnit_p_none, matchCompound_p_none, matchDecimal_p_none]
  have hA : ¬('p' :: 't' :: List.map Char.toLower t = strL "half an hour" ∨
      'p' :: 't' :: List.map Char.toLower t = strL "half hour") := by
    rintro (hx | hx) <;> exact cons_ne_of_head 'p' 'h' _ _ (by decide) hx
  have hB : ¬('p' :: 't' :: List.map Char.toLower t = strL "an hour" ∨
      'p' :: 't' :: List.map Char.toLower t = strL "one hour") := by
    rintro (hx | hx)
    · exact cons_ne_of_head 'p' 'a' _ _ (by decide) hx
    · exact cons_ne_of_head 'p' 'o' _ _ (by decide) hx
  rw [if_neg hA, if_neg hB]
  rfl

theorem normalize_duration_twice (d : Option Str) :
    normalize_duration (normalize_duration d) = none := by
  cases hd : normalize_duration d with
  | none => rfl
  | some w =>
    cases d with
    | none => simp [normalize_duration] at hd
    | some s =>
      simp only [normalize_duration] at hd
      split at hd
      · cases hd
      · obtain ⟨t, hw, hnws⟩ := normDur_shape _ w hd
        exact normDur_PT_none w t hw hnws

end TS

namespace TS

theorem num2_pad (n : Nat) (h : n < 100) :
    num2 (digitChar (n / 10)) (digitChar (n % 10)) = (n : Int) := by
  unfold num2
  rw [digitVal_digitChar _ (by omega), digitVal_digitChar _ (by omega)]
  push_cast
  omega

theorem num4_pad (n : Nat) (h : n < 10000) :
    num4 (digitChar (n / 1000)) (digitChar (n / 100 % 10)) (digitChar (n / 10 % 10))
      (digitChar (n % 10)) = (n : Int) := by
  unfold num4
  rw [digitVal_digitChar _ (by omega), digitVal_digitChar _ (by omega),
    digitVal_digitChar _ (by omega), digitVal_digitChar _ (by omega)]
  push_cast
  omega

theorem pad2_nonws (n : Nat) : ∀ c ∈ pad2 n, isWS c = false := by
  intro c hc
  rcases List.mem_cons.mp hc with rfl | hc
  · exact digitChar_not_ws _
  · rcases List.mem_singleton.mp hc with rfl
    exact digitChar_not_ws _

theorem pad4_nonws (n : Nat) : ∀ c ∈ pad4 n, isWS c = false := by
  intro c hc
  simp only [pad4, List.mem_cons, List.not_mem_nil, or_false] at hc
  rcases hc with rfl | rfl | rfl | rfl <;> exact digitChar_not_ws _

theorem pad6_nonws (n : Nat) : ∀ c ∈ pad6 n, isWS c = false := by
  intro c hc
  simp only [pad6, List.mem_cons, List.not_mem_nil, or_false] at hc
  rcases hc with rfl | rfl | rfl | rfl | rfl | rfl <;> exact digitChar_not_ws _

theorem offsetStr_nonws (off : Int) : ∀ c ∈ offsetStr off, isWS c = false := by
  intro c hc
  unfold offsetStr at hc
  split at hc <;>
  · rcases List.mem_cons.mp hc with rfl | hc
    · rfl
    · rcases List.mem_append.mp hc with hc | hc
      · exact pad2_nonws _ c hc
      · rcases List.mem_cons.mp hc with rfl | hc
        · rfl
        · exact pad2_nonws _ c hc

theorem forall_nonws_append {p : Char → Bool} {l1 l2 : Str}
    (h1 : ∀ c ∈ l1, p c = false) (h2 : ∀ c ∈ l2, p c = false) :
    ∀ c ∈ l1 ++ l2, p c = false := by
  intro c hc
  rcases List.mem_append.mp hc with hc | hc
  · exact h1 c hc
  · exact h2 c hc

theorem forall_nonws_cons {p : Char → Bool} {a : Char} {l : Str}
    (ha : p a = false) (h : ∀ c ∈ l, p c = false) :
    ∀ c ∈ a :: l, p c = false := by
  intro c hc
  rcases List.mem_cons.mp hc with rfl | hc
  · exact ha
  · exact h c hc

theorem renderIso_nonws (dt : DateTime) (off : Int) :
    ∀ c ∈ renderIso dt off, isWS c = false := by
  unfold renderIso
  refine forall_nonws_append (pad4_nonws _) (forall_nonws_cons rfl
    (forall_nonws_append (pad2_nonws _) (forall_nonws_cons rfl
    (forall_nonws_append (pad2_nonws _) (forall_nonws_cons rfl
    (forall_nonws_append (pad2_nonws _) (forall_nonws_cons rfl
    (forall_nonws_append (pad2_nonws _) (forall_nonws_cons rfl
    (forall_nonws_append (pad2_nonws _)
      (forall_nonws_append ?_ (offsetStr_nonws off))))))))))))
  split
  · exact forall_nonws_cons rfl (pad6_nonws _)
  · intro c hc
    simp at hc

end TS

namespace TS

theorem parse_iso_renderIso (dt : DateTime) (off : Int)
    (hv : validFields dt.year dt.month dt.day dt.hour dt.minute dt.second = true)
    (hu : dt.usec = 0) (hoff : off.natAbs < 6000) :
    parse_iso_format (renderIso dt off) = some dt := by
  have hb := hv
  simp only [validFields, Bool.and_eq_true, decide_eq_true_eq] at hb
  obtain ⟨⟨⟨⟨⟨⟨⟨⟨⟨⟨⟨h1, h2⟩, h3⟩, h4⟩, h5⟩, h6⟩, h7⟩, h8⟩, h9⟩, h10⟩, h11⟩, h12⟩ := hb
  have hstrip : stripStr (renderIso dt off) = renderIso dt off :=
    stripStr_eq_self _ (renderIso_nonws dt off)
  have hdm : daysInMonth dt.year dt.month ≤ 31 := by
    unfold daysInMonth
    split_ifs <;> omega
  simp only [parse_iso_format, hstrip]
  rw [show renderIso dt off =
      digitChar (dt.year.toNat / 1000) :: digitChar (dt.year.toNat / 100 % 10) ::
      digitChar (dt.year.toNat / 10 % 10) :: digitChar (dt.year.toNat % 10) :: '-' ::
      digitChar (dt.month.toNat / 10) :: digitChar (dt.month.toNat % 10) :: '-' ::
      digitChar (dt.day.toNat / 10) :: digitChar (dt.day.toNat % 10) :: 'T' ::
      digitChar (dt.hour.toNat / 10) :: digitChar (dt.hour.toNat % 10) :: ':' ::
      digitChar (dt.minute.toNat / 10) :: digitChar (dt.minute.toNat % 10) :: ':' ::
      digitChar (dt.second.toNat / 10) :: digitChar (dt.second.toNat % 10) :: offsetStr off
    from by simp [renderIso, pad4, pad2, hu]]
  simp only [List.all_cons, List.all_nil, digitChar_isDigit, Bool.and_true, Bool.true_and]
  have hok : offsetOk (offsetStr off) = true := by
    unfold offsetStr
    split <;>
    · simp only [pad2, List.cons_append, List.nil_append, offsetOk]
      simp [digitChar_isDigit]
  rw [hok]
  simp only [if_true]
  rw [num4_pad dt.year.toNat (by omega), num2_pad dt.month.toNat (by omega),
    num2_pad dt.day.toNat (by omega), num2_pad dt.hour.toNat (by omega),
    num2_pad dt.minute.toNat (by omega), num2_pad dt.second.toNat (by omega)]
  rw [Int.toNat_of_nonneg (by omega : (0 : Int) ≤ dt.year),
    Int.toNat_of_nonneg (by omega : (0 : Int) ≤ dt.month),
    Int.toNat_of_nonneg (by omega : (0 : Int) ≤ dt.day),
    Int.toNat_of_nonneg (by omega : (0 : Int) ≤ dt.hour),
    Int.toNat_of_nonneg (by omega : (0 : Int) ≤ dt.minute),
    Int.toNat_of_nonneg (by omega : (0 : Int) ≤ dt.second)]
  unfold mkDateTime
  rw [if_pos hv]
  refine congrArg some ?_
  cases dt
  simp only at hu
  simp [hu]

end TS

namespace TS

theorem renderIso_explicit (dt : DateTime) (off : Int) (hu : dt.usec = 0) :
    renderIso dt off =
      digitChar (dt.year.toNat / 1000) :: digitChar (dt.year.toNat / 100 % 10) ::
      digitChar (dt.year.toNat / 10 % 10) :: digitChar (dt.year.toNat % 10) :: '-' ::
      digitChar (dt.month.toNat / 10) :: digitChar (dt.month.toNat % 10) :: '-' ::
      digitChar (dt.day.toNat / 10) :: digitChar (dt.day.toNat % 10) :: 'T' ::
      digitChar (dt.hour.toNat / 10) :: digitChar (dt.hour.toNat % 10) :: ':' ::
      digitChar (dt.minute.toNat / 10) :: digitChar (dt.minute.toNat % 10) :: ':' ::
      digitChar (dt.second.toNat / 10) :: digitChar (dt.second.toNat % 10) :: offsetStr off := by
  simp [renderIso, pad4, pad2, hu]

theorem parse_canonical_renderIso_none (dt : DateTime) (off : Int) (hu : dt.usec = 0) :
    parse_canonical_format (renderIso dt off) = none := by
  unfold parse_canonical_format
  rw [stripStr_eq_self _ (renderIso_nonws dt off), renderIso_explicit dt off hu]
  unfold parseMonthBody
  simp only [takeWhile_cons_false _ _ _ (digitChar_not_alpha _)]
  simp

theorem parse_extended_renderIso_none (dt : DateTime) (off : Int) (hu : dt.usec = 0) :
    parse_extended_format (renderIso dt off) = none := by
  unfold parse_extended_format
  rw [stripStr_eq_self _ (renderIso_nonws dt off), renderIso_explicit dt off hu]
  simp only [takeWhile_cons_false _ _ _ (digitChar_not_alpha _)]
  simp

theorem parseText_renderIso (dt : DateTime) (off : Int)
    (hv : validFields dt.year dt.month dt.day dt.hour dt.minute dt.second = true)
    (hu : dt.usec = 0) (hoff : off.natAbs < 6000) :
    parseText (renderIso dt off) = some dt := by
  unfold parseText
  rw [parse_canonical_renderIso_none dt off hu, parse_extended_renderIso_none dt off hu]
  exact parse_iso_renderIso dt off hv hu hoff

theorem not_eod_render (dt : DateTime) (off : Int) :
    (strL "11:59 pm").isSuffixOf (stripStr (renderIso dt off)) = false := by
  rw [stripStr_eq_self _ (renderIso_nonws dt off)]
  cases hx : (strL "11:59 pm").isSuffixOf (renderIso dt off) with
  | false => rfl
  | true =>
    obtain ⟨t, ht⟩ := List.isSuffixOf_iff_suffix.mp hx
    have hsp : ' ' ∈ renderIso dt off := by
      rw [← ht]
      refine List.mem_append_right t ?_
      decide
    have := renderIso_nonws dt off ' ' hsp
    exact absurd this (by decide)

theorem dtLt_iff (a b : DateTime) : dtLt a b = true ↔
    (a.year < b.year ∨ (a.year = b.year ∧ (a.month < b.month ∨ (a.month = b.month ∧
     (a.day < b.day ∨ (a.day = b.day ∧ (a.hour < b.hour ∨ (a.hour = b.hour ∧
     (a.minute < b.minute ∨ (a.minute = b.minute ∧ (a.second < b.second ∨
     (a.second = b.second ∧ a.usec < b.usec)))))))))))) := by
  simp only [dtLt]
  split_ifs <;> simp only [decide_eq_true_eq] <;> omega

theorem dtLe_of_le_zeroSec (a b : DateTime) (hle : dtLe a b = true) (ha2 : a.second = 0)
    (ha3 : a.usec = 0) (hbu : 0 ≤ b.usec) : dtLe a { b with second := 0 } = true := by
  simp only [dtLe, Bool.not_eq_true'] at hle ⊢
  have hb : ¬ (dtLt b a = true) := by simp [hle]
  rw [dtLt_iff] at hb
  have goalP : ¬ (dtLt { b with second := 0 } a = true) := by
    rw [dtLt_iff]
    dsimp only
    omega
  cases hx : dtLt { b with second := 0 } a with
  | false => rfl
  | true => exact absurd hx goalP

theorem standardizeCore_second_pass (sdt edt : DateTime) (now : DateTime)
    (hss : sdt.second = 0) (hsu : sdt.usec = 0) (heu : edt.usec = 0)
    (hle : dtLe sdt edt = true)
    (hns : dtLt sdt now = false) (hne : dtLt { edt with second := 0 } now = false) :
    standardizeCore sdt edt false now = (sdt, { edt with second := 0 }) := by
  have hds : determine_seconds sdt false = sdt := by
    unfold determine_seconds
    cases sdt
    simp_all
  have hde : determine_seconds edt false = { edt with second := 0 } := by
    unfold determine_seconds
    cases edt
    simp_all
  unfold standardizeCore
  rw [hds, hde]
  unfold adjust_past_times
  dsimp only
  rw [hns, hne]
  simp only [Bool.not_false, Bool.and_self, if_true]
  unfold enforce_invariant
  rw [if_pos (dtLe_of_le_zeroSec sdt edt hle hss hsu (by omega))]

/-- C5 (amended): feeding a standardize output (with start and end not before
    the clock, at the code's minute granularity) back through standardize
    keeps the start, zeroes the seconds of the end (the ISO string no longer
    triggers the end-of-day seconds rule), and nulls the duration (the
    emitted PT form is not re-accepted).  The output is identical exactly
    when the end's seconds are already 00 and the duration is null. -/
theorem C5_restandardize (sdt edt : DateTime) (off : Int) (dur : Option Str) (now : DateTime)
    (hvs : validFields sdt.year sdt.month sdt.day sdt.hour sdt.minute sdt.second = true)
    (hve : validFields edt.year edt.month edt.day edt.hour edt.minute edt.second = true)
    (hss : sdt.second = 0) (hsu : sdt.usec = 0) (heu : edt.usec = 0)
    (hle : dtLe sdt edt = true)
    (hns : dtLt sdt now = false) (hne : dtLt { edt with second := 0 } now = false)
    (hoff : off.natAbs < 6000) :
    standardize (renderIso sdt off) (renderIso edt off) (normalize_duration dur) off now =
      some (renderIso sdt off, renderIso { edt with second := 0 } off, none) := by
  have hvz : validFields edt.year edt.month edt.day edt.hour edt.minute 0 = true := by
    simp only [validFields, Bool.and_eq_true, decide_eq_true_eq] at hve ⊢
    omega
  have hsne : (renderIso sdt off).isEmpty = false := by
    rw [renderIso_explicit sdt off hsu]; rfl
  have hene : (renderIso edt off).isEmpty = false := by
    rw [renderIso_explicit edt off heu]; rfl
  simp only [standardize, hsne, hene, Bool.or_self, Bool.false_eq_true, if_false]
  rw [parseText_renderIso sdt off hvs hsu hoff, parseText_renderIso edt off hve heu hoff]
  simp only
  rw [not_eod_render edt off]
  rw [standardizeCore_second_pass sdt edt now hss hsu heu hle hns hne]
  rw [normalize_duration_twice]

end TS

namespace TS

/-- Witness for C5_restandardize at the concrete first-pass output of the
    counterexample run. -/
theorem C5_restandardize_witness :
    standardize (renderIso ⟨2025, 11, 10, 9, 0, 0, 0⟩ (-300))
        (renderIso ⟨2025, 11, 15, 23, 59, 59, 0⟩ (-300))
        (normalize_duration (some (strL "2h"))) (-300) ⟨2025, 11, 1, 0, 0, 0, 0⟩ =
      some (renderIso ⟨2025, 11, 10, 9, 0, 0, 0⟩ (-300),
        renderIso { (⟨2025, 11, 15, 23, 59, 59, 0⟩ : DateTime) with second := 0 } (-300),
        none) :=
  C5_restandardize ⟨2025, 11, 10, 9, 0, 0, 0⟩ ⟨2025, 11, 15, 23, 59, 59, 0⟩ (-300)
    (some (strL "2h")) ⟨2025, 11, 1, 0, 0, 0, 0⟩ (by decide) (by decide) (by decide)
    (by decide) (by decide) (by decide) (by decide) (by decide) (by decide)

end TS

namespace EC

/-- C6: the cascade-delete classification at the claim's own scenario.  A
    parent with two children, one child's external delete answering 404: the
    result is deleted = 2 children (the 404 child among them), skipped = 0,
    errors = 0 — not the claimed deleted = N-1, skipped = 1.  The 404 comes
    back from _calbridge_delete_with_retry as success = True, was_404 = True,
    and delete_by_id tests success first, so the skipped/already_deleted
    branch is unreachable for children with calendar events. -/
theorem C6_cascade_404_lands_in_deleted :
    (delete_by_id (fun s => if s == "ev1" then .notFound else .success)
      ⟨[⟨"p", "Parent", none⟩, ⟨"c1", "Sub 1", some "p"⟩, ⟨"c2", "Sub 2", some "p"⟩],
       [⟨"c1", "cal", "ev1"⟩, ⟨"c2", "cal", "ev2"⟩]⟩ "p").1 =
      { deleted := [("c1", "ev1"), ("c2", "ev2")], skipped := [], errors := [] } := by
  rfl

/-- C7 (counterexample): a write whose every attempt answers 500 is retried
    to the 3-attempt maximum with backoff sleeps of 100ms and then 500ms
    only; the configured 2s backoff is never slept, because three attempts
    leave only two gaps. -/
theorem C7_counterexample :
    calbridge_post_with_retry (fun _ => .status 500) =
        { success := false, sleeps := [100, 500], attempts := 3 } ∧
      2000 ∉ (calbridge_post_with_retry (fun _ => .status 500)).sleeps :=
  ⟨by rfl, by decide⟩

/-- C7 (amended): for every sequence of responses, the POST retry loop makes
    at most 3 attempts and its backoff sleeps are a prefix of [100ms, 500ms]
    (never the configured 2s); a non-200 response below 500 on the first
    attempt — any 4xx in particular — returns failure immediately, with one
    attempt and no sleep. -/
theorem C7_retry_behavior (resp : Nat → PostResp) :
    ((calbridge_post_with_retry resp).sleeps = [] ∨
      (calbridge_post_with_retry resp).sleeps = [100] ∨
      (calbridge_post_with_retry resp).sleeps = [100, 500]) ∧
      2000 ∉ (calbridge_post_with_retry resp).sleeps ∧
      (calbridge_post_with_retry resp).attempts ≤ 3 ∧
      (∀ c, resp 0 = .status c → c ≠ 200 → c < 500 →
        calbridge_post_with_retry resp = { success := false, sleeps := [], attempts := 1 }) := by
  have key : ((calbridge_post_with_retry resp).sleeps = [] ∨
      (calbridge_post_with_retry resp).sleeps = [100] ∨
      (calbridge_post_with_retry resp).sleeps = [100, 500]) ∧
      (calbridge_post_with_retry resp).attempts ≤ 3 := by
    unfold calbridge_post_with_retry
    simp only [postRetryAux]
    repeat' split
    all_goals try simp [backoff_delays]
    all_goals omega
  refine ⟨key.1, ?_, key.2, ?_⟩
  · rcases key.1 with h | h | h <;> rw [h] <;> decide
  · intro c h0 hne hlt
    unfold calbridge_post_with_retry
    simp only [postRetryAux, h0]
    repeat' split
    all_goals first | rfl | omega | simp_all

/-- Witness for C7_retry_behavior: a 404 on the first attempt fails at once
    with no sleep. -/
theorem C7_retry_behavior_witness :
    calbridge_post_with_retry (fun _ => .status 404) =
      { success := false, sleeps := [], attempts := 1 } :=
  (C7_retry_behavior (fun _ => .status 404)).2.2.2 404 rfl (by decide) (by decide)

theorem find?_key_unique (key : EventMapRow → String) (l : List EventMapRow)
    (x : EventMapRow) (hx : x ∈ l) (hnd : (l.map key).Nodup) :
    l.find? (fun r => key r == key x) = some x := by
  induction l with
  | nil => cases hx
  | cons a rest ih =>
    simp only [List.map_cons, List.nodup_cons] at hnd
    rcases List.mem_cons.mp hx with rfl | hx2
    · simp [List.find?]
    · have hne : key a ≠ key x := by
        intro hcontr
        exact hnd.1 (hcontr ▸ List.mem_map_of_mem key hx2)
      have hbeq : (key a == key x) = false := by
        simp [hne]
      simp only [List.find?, hbeq]
      exact ih hx2 hnd.2

theorem processChildren_cons (bridge : String → BridgeDel) (db : Db) (x : String)
    (rest : List String) (res : DeleteResult) :
    processChildren bridge db (x :: rest) res =
      processChildren bridge (delete_child_task bridge db x).2 rest
        (classifyChild res x (delete_child_task bridge db x).1) := rfl

theorem processChildren_keeps (bridge : String → BridgeDel) (c : TaskRow)
    (em : EventMapRow) (msg : String) (hcm : em.task_id = c.id)
    (hbr : bridge em.calendar_event_id = .failure msg) :
    ∀ (ids : List String) (db : Db) (res : DeleteResult),
      c ∈ db.tasks → em ∈ db.event_map →
      (db.event_map.map (fun r => r.task_id)).Nodup →
      c ∈ (processChildren bridge db ids res).2.tasks ∧
        em ∈ (processChildren bridge db ids res).2.event_map ∧
        ((processChildren bridge db ids res).2.event_map.map
          (fun r => r.task_id)).Nodup := by
  intro ids
  induction ids with
  | nil =>
    intro db res h1 h2 h3
    exact ⟨h1, h2, h3⟩
  | cons x rest ih =>
    intro db res h1 h2 h3
    rw [processChildren_cons]
    by_cases hx : x = c.id
    · subst hx
      have hfind : db.event_map.find? (fun r => r.task_id == c.id) = some em := by
        have := find?_key_unique (fun r => r.task_id) db.event_map em h2 h3
        simp only [hcm] at this
        exact this
      have hdb : (delete_child_task bridge db c.id).2 = db := by
        simp [delete_child_task, hfind, hbr, delRetryResult]
      rw [hdb]
      exact ih db _ h1 h2 h3
    · cases hfind : db.event_map.find? (fun r => r.task_id == x) with
      | none =>
        have hdb : (delete_child_task bridge db x).2 =
            { db with tasks := db.tasks.filter (fun t => t.id ≠ x) } := by
          simp [delete_child_task, hfind]
        rw [hdb]
        refine ih _ _ ?_ h2 h3
        exact List.mem_filter.mpr ⟨h1, by simpa using fun h : c.id = x => hx h.symm⟩
      | some row =>
        cases hb2 : (delRetryResult (bridge row.calendar_event_id)).1 with
        | true =>
          have hdb : (delete_child_task bridge db x).2 =
              { tasks := db.tasks.filter (fun t => t.id ≠ x),
                event_map := db.event_map.filter (fun r => r.task_id ≠ x) } := by
            simp [delete_child_task, hfind, hb2]
          rw [hdb]
          refine ih _ _ ?_ ?_ ?_
          · exact List.mem_filter.mpr ⟨h1, by simpa using fun h : c.id = x => hx h.symm⟩
          · refine List.mem_filter.mpr ⟨h2, ?_⟩
            simp only [decide_eq_true_eq]
            rw [hcm]
            exact fun h => hx h.symm
          · exact List.Nodup.sublist
              (List.Sublist.map _ (List.filter_sublist db.event_map)) h3
        | false =>
          have hdb : (delete_child_task bridge db x).2 = db := by
            simp [delete_child_task, hfind, hb2]
          rw [hdb]
          exact ih db _ h1 h2 h3

/-- C10: when a parent cascade hits a child whose external deletion fails
    with a non-404 error, delete_by_id still deletes the parent's row and
    commits, while the failed child's tasks row and event_map row survive
    with a parent_id that no longer references any task row: the store
    changes and the parent-child ownership invariant breaks. -/
theorem C10_failed_cascade_orphans_children (bridge : String → BridgeDel) (db : Db)
    (pid : String) (pr c : TaskRow) (em : EventMapRow) (msg : String)
    (hpr : pr ∈ db.tasks) (hprid : pr.id = pid)
    (hc : c ∈ db.tasks) (hcp : c.parent_id = some pid) (hcid : c.id ≠ pid)
    (hem : em ∈ db.event_map) (hemk : em.task_id = c.id)
    (hnd : (db.event_map.map (fun r => r.task_id)).Nodup)
    (hbr : bridge em.calendar_event_id = .failure msg) :
    (∀ t ∈ (delete_by_id bridge db pid).2.tasks, t.id ≠ pid) ∧
      c ∈ (delete_by_id bridge db pid).2.tasks ∧
      em ∈ (delete_by_id bridge db pid).2.event_map := by
  cases hfind : db.tasks.find? (fun t => t.id == pid) with
  | none =>
    have := List.find?_eq_none.mp hfind pr hpr
    simp [hprid] at this
  | some t0 =>
    have hcmem : c.id ∈ (db.tasks.filter (fun t => t.parent_id == some pid)).map
        (fun t => t.id) :=
      List.mem_map_of_mem _ (List.mem_filter.mpr ⟨hc, by simp [hcp]⟩)
    have hnonempty : ((db.tasks.filter (fun t => t.parent_id == some pid)).map
        (fun t => t.id)).isEmpty = false := by
      cases hl : (db.tasks.filter (fun t => t.parent_id == some pid)).map
          (fun t => t.id) with
      | nil => rw [hl] at hcmem; cases hcmem
      | cons a l => rfl
    simp only [delete_by_id, hfind, hnonempty, Bool.false_eq_true, if_false]
    obtain ⟨hct, hemt, _⟩ := processChildren_keeps bridge c em msg hemk hbr
      ((db.tasks.filter (fun t => t.parent_id == some pid)).map (fun t => t.id))
      db {} hc hem hnd
    refine ⟨?_, ?_, hemt⟩
    · intro t ht
      have := (List.mem_filter.mp ht).2
      simpa using this
    · exact List.mem_filter.mpr ⟨hct, by simp [hcid]⟩

/-- Witness for C10_failed_cascade_orphans_children on a concrete store. -/
theorem C10_failed_cascade_witness :
    (∀ t ∈ (delete_by_id
        (fun s => if s == "ev1" then .failure "CalBridge server error 500" else .success)
        ⟨[⟨"p", "Parent", none⟩, ⟨"c1", "Sub 1", some "p"⟩, ⟨"c2", "Sub 2", some "p"⟩],
         [⟨"c1", "cal", "ev1"⟩, ⟨"c2", "cal", "ev2"⟩]⟩ "p").2.tasks, t.id ≠ "p") ∧
      (⟨"c1", "Sub 1", some "p"⟩ : TaskRow) ∈ (delete_by_id
        (fun s => if s == "ev1" then .failure "CalBridge server error 500" else .success)
        ⟨[⟨"p", "Parent", none⟩, ⟨"c1", "Sub 1", some "p"⟩, ⟨"c2", "Sub 2", some "p"⟩],
         [⟨"c1", "cal", "ev1"⟩, ⟨"c2", "cal", "ev2"⟩]⟩ "p").2.tasks ∧
      (⟨"c1", "cal", "ev1"⟩ : EventMapRow) ∈ (delete_by_id
        (fun s => if s == "ev1" then .failure "CalBridge server error 500" else .success)
        ⟨[⟨"p", "Parent", none⟩, ⟨"c1", "Sub 1", some "p"⟩, ⟨"c2", "Sub 2", some "p"⟩],
         [⟨"c1", "cal", "ev1"⟩, ⟨"c2", "cal", "ev2"⟩]⟩ "p").2.event_map :=
  C10_failed_cascade_orphans_children
    (fun s => if s == "ev1" then .failure "CalBridge server error 500" else .success)
    ⟨[⟨"p", "Parent", none⟩, ⟨"c1", "Sub 1", some "p"⟩, ⟨"c2", "Sub 2", some "p"⟩],
     [⟨"c1", "cal", "ev1"⟩, ⟨"c2", "cal", "ev2"⟩]⟩ "p"
    ⟨"p", "Parent", none⟩ ⟨"c1", "Sub 1", some "p"⟩ ⟨"c1", "cal", "ev1"⟩
    "CalBridge server error 500" (by decide) rfl (by decide) rfl (by decide)
    (by decide) rfl (by decide) rfl

end EC

namespace LD

open TS

/-- C8 (counterexample): the validator passes through a subtask whose
    duration "PT2X30M" does not match the pattern PT(\d+H)?(\d+M)? even
    case-insensitively: an invalid PT-prefixed duration is neither capped to
    PT3H nor dropped when its digit-searched minutes stay at most 180, so
    not every returned duration matches the claimed grammar. -/
theorem C8_counterexample :
    validate_and_fix_subtasks [(strL "abc", strL "PT2X30M"), (strL "def", strL "PT30M")] =
        [⟨strL "abc", strL "PT2X30M"⟩, ⟨strL "def", strL "PT30M"⟩] ∧
      parsePTParts (upperStr (strL "PT2X30M")) = none :=
  ⟨by rfl, by rfl⟩

theorem parse_cap_le (s : Str) :
    parse_duration_to_minutes (cap_duration_to_pt3h s) ≤ 180 := by
  unfold cap_duration_to_pt3h
  split
  · assumption
  · decide

theorem fixOne_duration (st : Str × Str) (out : Subtask) (h : fixOne st = some out) :
    parse_duration_to_minutes out.duration ≤ 180 := by
  simp only [fixOne] at h
  split at h
  · exact absurd h (by simp)
  · split at h
    · rcases Option.some.inj h with rfl
      exact parse_cap_le _
    · split at h
      · rcases Option.some.inj h with rfl
        exact parse_cap_le _
      · exact absurd h (by simp)

theorem validate_eq (raw : List (Str × Str)) :
    validate_and_fix_subtasks raw =
      (if 5 < (if (raw.filterMap fixOne).length < 2 then default_subtasks
               else raw.filterMap fixOne).length
       then (if (raw.filterMap fixOne).length < 2 then default_subtasks
             else raw.filterMap fixOne).take 5
       else (if (raw.filterMap fixOne).length < 2 then default_subtasks
             else raw.filterMap fixOne)) := rfl

/-- C8 (amended): the validator always returns between 2 and 5 subtasks;
    every returned duration's digit-searched total is at most 180 minutes
    (over-cap durations are replaced by PT3H); when fewer than 2 subtasks
    survive the filter the two defaults are substituted; more than 5 are
    truncated to the first 5.  Returned duration strings, however, need not
    match the PT grammar (see C8_counterexample). -/
theorem C8_validator_invariants (raw : List (Str × Str)) :
    2 ≤ (validate_and_fix_subtasks raw).length ∧
      (validate_and_fix_subtasks raw).length ≤ 5 ∧
      (∀ st ∈ validate_and_fix_subtasks raw,
        parse_duration_to_minutes st.duration ≤ 180) ∧
      ((raw.filterMap fixOne).length < 2 →
        validate_and_fix_subtasks raw = default_subtasks) := by
  by_cases hlt : (raw.filterMap fixOne).length < 2
  · have hv : validate_and_fix_subtasks raw = default_subtasks := by
      rw [validate_eq, if_pos hlt, if_neg (by decide)]
    rw [hv]
    exact ⟨by decide, by decide, by decide, fun _ => rfl⟩
  · have hv : validate_and_fix_subtasks raw =
        (if 5 < (raw.filterMap fixOne).length then (raw.filterMap fixOne).take 5
         else raw.filterMap fixOne) := by
      rw [validate_eq, if_neg hlt]
    by_cases h5 : 5 < (raw.filterMap fixOne).length
    · rw [hv, if_pos h5]
      refine ⟨?_, ?_, ?_, fun hcon => absurd hcon hlt⟩
      · rw [List.length_take]; omega
      · rw [List.length_take]; omega
      · intro st hst
        have hst2 : st ∈ raw.filterMap fixOne := (List.take_sublist 5 _).subset hst
        obtain ⟨a, _, hfa⟩ := List.mem_filterMap.mp hst2
        exact fixOne_duration a st hfa
    · rw [hv, if_neg h5]
      refine ⟨by omega, by omega, ?_, fun hcon => absurd hcon hlt⟩
      intro st hst
      obtain ⟨a, _, hfa⟩ := List.mem_filterMap.mp hst
      exact fixOne_duration a st hfa

/-- Witness for C8_validator_invariants on the empty subtask list. -/
theorem C8_validator_invariants_witness :
    2 ≤ (validate_and_fix_subtasks []).length ∧
      (validate_and_fix_subtasks []).length ≤ 5 ∧
      (∀ st ∈ validate_and_fix_subtasks [],
        parse_duration_to_minutes st.duration ≤ 180) ∧
      ((([] : List (Str × Str)).filterMap fixOne).length < 2 →
        validate_and_fix_subtasks [] = default_subtasks) :=
  C8_validator_invariants []

end LD

namespace TD

/-- C9: whatever calendar, type, or duration the LLM response carried, the
    post-LLM enforcement returns type = simple and the input duration
    verbatim whenever the input duration is non-null. -/
theorem C9_duration_forces_simple (query : TS.Str) (d : String)
    (work_id home_id : Option String) (ad : AnalysisData) :
    (analyzePost query (some d) work_id home_id ad).typeField = "simple" ∧
      (analyzePost query (some d) work_id home_id ad).duration = some d :=
  ⟨rfl, rfl⟩

/-- Witness for C9_duration_forces_simple on a concrete query and duration. -/
theorem C9_duration_forces_simple_witness :
    (analyzePost (TS.strL "plan the offsite") (some "PT2H") (some "w") (some "h")
        ⟨some "x", some "complex", some "Offsite"⟩).typeField = "simple" ∧
      (analyzePost (TS.strL "plan the offsite") (some "PT2H") (some "w") (some "h")
        ⟨some "x", some "complex", some "Offsite"⟩).duration = some "PT2H" :=
  C9_duration_forces_simple (TS.strL "plan the offsite") "PT2H" (some "w") (some "h")
    ⟨some "x", some "complex", some "Offsite"⟩

end TD
